import Mathlib

/-!
Verification development for the agentpy output module (`agentpy/datadict.py`,
with `agentpy/analysis.py` and the shapes exercised by `tests/test_tools.py`).

The development shallowly embeds the `DataDict` output record and the
operations of the data-arrangement engine:

* a pandas `DataFrame` is modelled by `Table`: a list of index-level names
  (`none` for an unnamed level, as in a default `RangeIndex`), a list of
  column names, and rows holding (index cells, column cells);
* cell values are modelled by `Scalar` (int / str / bool / NaN); CSV and JSON
  files are modelled structurally (`File`), abstracting text serialization,
  which is exact for the integer cells used throughout;
* a `DataDict` is an insertion-ordered association list from string keys to
  `Value`s; nested records (`variables`, `parameters`) hold `Child` entries;
* Python exceptions are modelled by `PyError` and fallible operations return
  `Except PyError _`; in-place mutation (`df['obj_id'] = 0` inside
  `_combine_vars`) is modelled by explicit state passing, returning the
  updated record alongside the result.
-/

/-- Python scalar values occurring in the modelled records. `nan` models
`float('nan')` / `np.nan` (used by pandas to fill missing cells). -/
inductive Scalar where
  | int (n : Int)
  | str (s : String)
  | bool (b : Bool)
  | nan
deriving DecidableEq, Repr

/-- Python `==` on scalars: `bool` compares equal to the corresponding int
(`True == 1`), `nan` compares unequal to everything including itself. -/
def scalarEq (a b : Scalar) : Bool :=
  match a, b with
  | .int x, .int y => x = y
  | .int x, .bool c => x = (if c then 1 else 0)
  | .bool c, .int y => (if c then (1 : Int) else 0) = y
  | .bool c, .bool d => c = d
  | .str s, .str t => s = t
  | _, _ => false

/-- Python exception kinds raised by the modelled code. -/
inductive PyError where
  | typeError (msg : String)
  | nameError (msg : String)
  | attributeError (msg : String)
  | keyError (msg : String)
  | valueError (msg : String)
deriving DecidableEq, Repr

/-- Model of a `pandas.DataFrame`: named or unnamed index levels, column
names, and rows of (index cells, column cells). Equality of `Table`s is
structural, matching `DataFrame.equals` (which is dtype- and NaN-aware:
two NaNs in the same cell count as equal). -/
structure Table where
  idxNames : List (Option String)
  colNames : List String
  rows : List (List Scalar × List Scalar)
deriving DecidableEq, Repr

/-- Every row of the table has as many index cells as there are index levels
and as many column cells as there are columns. -/
def Table.sized (t : Table) : Prop :=
  ∀ r ∈ t.rows, r.1.length = t.idxNames.length ∧ r.2.length = t.colNames.length

instance (t : Table) : Decidable t.sized := by
  unfold Table.sized; infer_instance

/-- Number of rows, `len(df)`. -/
def Table.nRows (t : Table) : Nat := t.rows.length

/-- The empty `pd.DataFrame()`: an unnamed empty index, no columns. -/
def emptyDF : Table := { idxNames := [none], colNames := [], rows := [] }

/-- Shape check `df.shape == (0, 0)` from `_combine_pars` Case 5. -/
def Table.shape00 (t : Table) : Bool := t.rows.isEmpty && t.colNames.isEmpty

/-- Cell of a row at the column named `c` (first occurrence, as in pandas
with unique column labels). The default is irrelevant on well-sized tables
whose column names are distinct. -/
def cellOf (names : List String) (cs : List Scalar) (c : String) : Scalar :=
  ((names.zip cs).lookup c).getD (.int 0)

/-- Column assignment `df[c] = v` with a scalar `v`: overwrite the column if
it exists, otherwise append a new column holding `v` in every row. -/
def Table.setCol (t : Table) (c : String) (v : Scalar) : Table :=
  if c ∈ t.colNames then
    { t with rows := t.rows.map fun r =>
        (r.1, List.zipWith (fun name x => if name = c then v else x) t.colNames r.2) }
  else
    { idxNames := t.idxNames, colNames := t.colNames ++ [c],
      rows := t.rows.map fun r => (r.1, r.2 ++ [v]) }

/-- The values of column `c`, row by row. -/
def Table.getCol (t : Table) (c : String) : List Scalar :=
  t.rows.map fun r => cellOf t.colNames r.2 c

/-- Resolved name of index level `o` at position `i` under `reset_index`:
a named level keeps its name, an unnamed level becomes `index` (single
level) or `level_i` (multi-index), as in pandas. -/
def resolveIdxName (single : Bool) (i : Nat) (o : Option String) : String :=
  o.getD (if single then "index" else "level_" ++ toString i)

/-- Model of `df.reset_index()`: all index levels become leading columns and
the table gets a fresh unnamed `RangeIndex`. -/
def Table.reset_index (t : Table) : Table :=
  let single := t.idxNames.length = 1
  { idxNames := [none],
    colNames := (t.idxNames.enum.map fun p => resolveIdxName single p.1 p.2) ++ t.colNames,
    rows := t.rows.enum.map fun p => ([Scalar.int p.1], p.2.1 ++ p.2.2) }

/-- Model of `df.set_index(keys)` (default `drop=True`, `append=False`):
the listed columns become the index levels, in the given order; the previous
index is discarded. Assumes the keys occur among the columns (pandas raises
`KeyError` otherwise; call sites either guarantee this or check first). -/
def Table.set_index (t : Table) (keys : List String) : Table :=
  { idxNames := keys.map some,
    colNames := t.colNames.filter (fun c => c ∉ keys),
    rows := t.rows.map fun r =>
      (keys.map (cellOf t.colNames r.2),
       ((t.colNames.zip r.2).filter (fun p => p.1 ∉ keys)).map Prod.snd) }

/-- Column selection `df[keys]` (`KeyError` when a key is missing). -/
def Table.selectColsE (t : Table) (ks : List String) : Except PyError Table :=
  if ks.all (fun k => k ∈ t.colNames) then
    .ok { idxNames := t.idxNames, colNames := ks,
          rows := t.rows.map fun r => (r.1, ks.map (cellOf t.colNames r.2)) }
  else .error (.keyError "column not found")

/-- Entry of a nested record (`variables` / `parameters` child). A child that
is neither a `DataFrame` nor a `dict` (modelled by `scalar`) is silently
skipped by `DataDict.save`. -/
inductive Child where
  | table (t : Table)
  | pydict (d : List (String × Scalar))
  | scalar (s : Scalar)
deriving DecidableEq, Repr

/-- Top-level entry of an output record: a `DataFrame`, a plain `dict` of
scalars, a scalar, or a nested `DataDict` of children (the shapes of the
`variables` and `parameters` sections in the data model). -/
inductive Value where
  | table (t : Table)
  | pydict (d : List (String × Scalar))
  | scalar (s : Scalar)
  | sub (cs : List (String × Child))
deriving DecidableEq, Repr

/-- The output record `DataDict`: an insertion-ordered mapping from string
keys to values (`AttrDict` gives attribute access to the same entries). -/
structure DataDict where
  entries : List (String × Value)
deriving DecidableEq, Repr

/-- First-match lookup, Python `self[key]` (keys are unique in a `dict`). -/
def DataDict.lookup (d : DataDict) (k : String) : Option Value :=
  d.entries.lookup k

/-- Python `dict` assignment `d[k] = v`: an existing key keeps its position
and gets the new value; a new key is appended. -/
def upsert {α : Type} (xs : List (String × α)) (k : String) (v : α) :
    List (String × α) :=
  if (xs.lookup k).isSome then
    xs.map fun p => if p.1 = k then (k, v) else p
  else xs ++ [(k, v)]

/-- Record assignment `self[k] = v`. -/
def DataDict.setKey (d : DataDict) (k : String) (v : Value) : DataDict :=
  ⟨upsert d.entries k v⟩

/-! ### String utilities (Python `in` and `str.replace`, modelled on char lists) -/

/-- Python substring test `pat in s` on char lists: `pat` occurs contiguously
somewhere in `s` (the empty pattern always occurs). -/
def listContains (pat : List Char) : List Char → Bool
  | [] => pat.isPrefixOf ([] : List Char)
  | c :: rest => pat.isPrefixOf (c :: rest) || listContains pat rest

/-- Worker for `listReplace`: when the skip counter is positive, the head
character belongs to an occurrence that has already been replaced and is
dropped; at zero, an occurrence of `pat` starting here emits `repl` and
sets the counter to skip the rest of the occurrence. Structural in the
string, so it evaluates by `rfl`. -/
def replaceGo (pat repl : List Char) : Nat → List Char → List Char
  | _, [] => []
  | n + 1, _ :: rest => replaceGo pat repl n rest
  | 0, c :: rest =>
    if pat.isPrefixOf (c :: rest) ∧ pat ≠ [] then
      repl ++ replaceGo pat repl (pat.length - 1) rest
    else c :: replaceGo pat repl 0 rest

/-- Python `s.replace(pat, repl)` on char lists: replace non-overlapping
occurrences left to right (a no-op for the patterns used here when `pat`
is absent). -/
def listReplace (pat repl s : List Char) : List Char :=
  replaceGo pat repl 0 s

/-- Python `pat in s` for strings. -/
def strContains (s pat : String) : Bool := listContains pat.toList s.toList

/-- Python `s.replace(pat, repl)` for strings. -/
def strReplace (s pat repl : String) : String :=
  ⟨listReplace pat.toList repl.toList s.toList⟩

/-- Digit-string parsing for `pyInt`, structural over the characters. -/
def digitsToNat (cs : List Char) : Option Nat :=
  if cs ≠ [] ∧ cs.all Char.isDigit then
    some (cs.foldl (fun acc c => acc * 10 + (c.toNat - 48)) 0)
  else none

/-- Python `int(s)` on the directory-suffix strings: an optional minus sign
followed by digits parses to an integer, anything else raises `ValueError`
(leading `+` and surrounding whitespace are elided — the directory names at
issue never carry them). -/
def pyInt (s : String) : Option Int :=
  match s.toList with
  | '-' :: rest => (digitsToNat rest).map fun n => -(n : Int)
  | cs => (digitsToNat cs).map Int.ofNat

/-- Python `s.split(sep)` for a single-character separator, structural over
the characters (`"a__b".split("_")` is `["a", "", "b"]`, `"".split("_")` is
`[""]`). -/
def splitChar (sep : Char) : List Char → List (List Char)
  | [] => [[]]
  | c :: rest =>
    if c = sep then [] :: splitChar sep rest
    else
      match splitChar sep rest with
      | [] => [[c]]
      | h :: t => (c :: h) :: t

/-! ### Record equality (`DataDict.__eq__`, datadict.py lines 97-112) -/

/-- Python `dict.__eq__` on flat scalar dicts: same key set, and for each key
equal values (`AttrDict` inherits this from `dict`). -/
def pydictEq (a b : List (String × Scalar)) : Bool :=
  a.length = b.length &&
  a.all fun p => match b.lookup p.1 with
    | some w => scalarEq p.2 w
    | none => false

/-- Value comparison performed inside `DataDict.__eq__` for children of a
nested record: `DataFrame.equals` for tables (element-wise, dtype-aware),
`dict` equality for dicts, Python `==` for scalars; values of different
kinds compare unequal. -/
def childEq : Child → Child → Bool
  | .table a, .table b => decide (a = b)
  | .pydict a, .pydict b => pydictEq a b
  | .scalar a, .scalar b => scalarEq a b
  | _, _ => false

/-- Comparison of nested records: `DataDict.__eq__` recursion — every key of
the left record must be present in the right with an equal value; extra keys
on the right are ignored (subset semantics). -/
def subEq (a b : List (String × Child)) : Bool :=
  a.all fun p => match b.lookup p.1 with
    | some c => childEq p.2 c
    | none => false

/-- Comparison of top-level values inside `DataDict.__eq__`: tables via
`DataFrame.equals`, nested records via the subset recursion, dicts and
scalars via Python `==`. A nested `DataDict` never equals a plain value
(`isinstance(other, DataDict)` fails), and a plain dict of scalars never
equals a record of tables/dicts element-wise. -/
def valueEq : Value → Value → Bool
  | .table a, .table b => decide (a = b)
  | .pydict a, .pydict b => pydictEq a b
  | .scalar a, .scalar b => scalarEq a b
  | .sub a, .sub b => subEq a b
  | _, _ => false

/-- The source `DataDict.__eq__` (datadict.py lines 97-109): iterate over the
keys of `a`; each must be present in `b` with an equal value — `DataFrame`
entries are compared with `.equals` (element-wise), everything else with
`==`. Keys present only in `b` are never examined. -/
def dataDictEq (a b : DataDict) : Bool :=
  a.entries.all fun p => match b.lookup p.1 with
    | some w => valueEq p.2 w
    | none => false

/-! ### Experiment-id resolution (`_last_exp_id`, datadict.py lines 30-39) -/

/-- The source `_last_exp_id(name, path)`: list the directory, keep the
entries whose name CONTAINS `name` as a substring (`name in s`), and return
the largest integer suffix after the last underscore; `0` when nothing
matches. `int(...)` on a non-numeric suffix raises `ValueError`. -/
def last_exp_id (name : String) (listing : List String) : Except PyError Int :=
  let exp_dirs := listing.filter fun s => strContains s name
  if exp_dirs.isEmpty then .ok 0
  else
    match exp_dirs.mapM
        (fun s => pyInt ⟨(splitChar '_' s.toList).getLastD []⟩) with
    | some (i :: is) => .ok (is.foldl max i)
    | some [] => .ok 0
    | none => .error (.valueError "invalid literal for int")

/-! ### Parameter combination (`_dict_pars_to_df`, `_combine_pars`,
datadict.py lines 255-286) -/

/-- The source `DataDict._dict_pars_to_df`: broadcast a flat parameter dict
over `log.sample_size` rows (1 row when absent) indexed by `sample_id`.
Accessing `self.log` when the record has no `log` entry raises
`AttributeError`; a non-integer `sample_size` makes the list replication
`[v] * n` raise `TypeError` (Python `bool` counts as an int; a negative int
yields zero rows, like `range`). A `log` entry that is not a mapping is
modelled as a `TypeError` (the source would misbehave inside pandas). -/
def DataDict.dict_pars_to_df (d : DataDict) (pars : List (String × Scalar)) :
    Except PyError Table :=
  let nE : Except PyError Nat :=
    match d.lookup "log" with
    | none => .error (.attributeError "log")
    | some (.pydict lg) =>
      match lg.lookup "sample_size" with
      | none => .ok 1
      | some (.int m) => .ok m.toNat
      | some (.bool b) => .ok (if b then 1 else 0)
      | some _ => .error (.typeError "sample_size is not an int")
    | some _ => .error (.typeError "log is not a mapping")
  match nE with
  | .error e => .error e
  | .ok n =>
    .ok { idxNames := [some "sample_id"],
          colNames := pars.map Prod.fst,
          rows := (List.range n).map fun i =>
            ([Scalar.int i], pars.map Prod.snd) }

/-- The source `DataDict._combine_pars(sample=True, constants=True)`:

* no `parameters` entry — return `None` (Case 0);
* `parameters` a nested record (Case 1): if the sample is requested and
  present, copy the sample table and, if constants are also requested and
  present, assign each constant as a broadcast column (`dfp[k] = v` in
  insertion order); otherwise, if constants are requested and present,
  broadcast them over `sample_size` rows; otherwise keep the empty frame;
* `parameters` a flat dict AND constants requested (Case 2) — broadcast it;
* anything else — `TypeError` (Case 4); note a flat dict with
  `constants=False` falls through to this branch;
* a resulting frame of shape `(0, 0)` becomes `None` (Case 5).

A `sample` child that is not a table, or a `constants` child that is not a
dict, is modelled as `AttributeError` (the source fails later inside pandas
on such shapes, never with this function's `TypeError`). `combineParsFrame`
computes the candidate frame `dfp` for a present `parameters` entry. -/
def combineParsFrame (d : DataDict) (samp consts : Bool) (v : Value) :
    Except PyError Table :=
  match v with
  | .sub ps =>
    if samp ∧ (ps.lookup "sample").isSome then
      match ps.lookup "sample" with
      | some (.table t) =>
        if consts ∧ (ps.lookup "constants").isSome then
          match ps.lookup "constants" with
          | some (.pydict cs) =>
            .ok (cs.foldl (fun acc p => acc.setCol p.1 p.2) t)
          | _ => .error (.attributeError "items")
        else .ok t
      | _ => .error (.attributeError "copy")
    else if consts ∧ (ps.lookup "constants").isSome then
      match ps.lookup "constants" with
      | some (.pydict cs) => d.dict_pars_to_df cs
      | _ => .error (.attributeError "items")
    else .ok emptyDF
  | .pydict p =>
    if consts then d.dict_pars_to_df p
    else .error (.typeError "DataDict.parameters must be a dict or DataDict.")
  | _ => .error (.typeError "DataDict.parameters must be a dict or DataDict.")

/-- Assembled `_combine_pars`: dispatch on the section's shape, then apply
the final Case 5 emptiness check. -/
def DataDict.combine_pars (d : DataDict) (samp consts : Bool) :
    Except PyError (Option Table) :=
  match d.lookup "parameters" with
  | none => .ok none
  | some v =>
    match combineParsFrame d samp consts v with
    | .error e => .error e
    | .ok dfp => if dfp.shape00 then .ok none else .ok (some dfp)

/-! ### Variable combination (`_combine_vars`, datadict.py lines 201-253) -/

/-- Argument shape of `obj_types` / `var_keys` / section selectors:
`off` is Python `False`, `all` is `True`, `keys` a string or list of strings
(`make_list` wraps a single string into a one-element list). -/
inductive Sel where
  | off
  | all
  | keys (ks : List String)
deriving DecidableEq, Repr

/-- Columns of a child, `v.columns`: only a table has them (`AttributeError`
on a dict or scalar child, as in the filter comprehension). -/
def Child.columnsE : Child → Except PyError (List String)
  | .table t => .ok t.colNames
  | _ => .error (.attributeError "columns")

/-- The `var_keys` filter of `_combine_vars`: keep the children that contain
at least one of the requested columns (`any(x in v.columns ...)`); the
comprehension touches `v.columns` of every child, so a non-table child
raises even when the key list is empty (`var_keys=False` gives the list
`[False]`, which matches no string column). -/
def filterByVarKeys (ks : List String) :
    List (String × Child) → Except PyError (List (String × Child))
  | [] => .ok []
  | (k, c) :: rest =>
    match c.columnsE with
    | .error e => .error e
    | .ok cols =>
      match filterByVarKeys ks rest with
      | .error e => .error e
      | .ok r => .ok (if ks.any (fun x => x ∈ cols) then (k, c) :: r else r)

/-- Model of `pd.concat(df_dict)` followed by
`df.index.set_names('obj_type', level=0)`: stack the child tables, adding
the child key as a new outermost index level named `obj_type`. Columns are
united in order of appearance with NaN filling (the children share their
columns in the shapes arising here), and the index levels of the first
child are used for the remaining levels. -/
def concatDict (cs : List (String × Table)) : Table :=
  let allCols := (cs.flatMap fun p => p.2.colNames).dedup
  let idx0 := match cs with
    | [] => []
    | (_, t) :: _ => t.idxNames
  { idxNames := some "obj_type" :: idx0,
    colNames := allCols,
    rows := cs.flatMap fun p => p.2.rows.map fun r =>
      (Scalar.str p.1 :: r.1,
       allCols.map fun c =>
         if c ∈ p.2.colNames then cellOf p.2.colNames r.2 c else Scalar.nan) }

/-- Index-level names must all be named before `df.set_index(indexes)`; a
`None` entry raises `KeyError` inside pandas. -/
def resolveAllNames : List (Option String) → Except PyError (List String)
  | [] => .ok []
  | some s :: rest => (resolveAllNames rest).map fun r => s :: r
  | none :: _ => .error (.keyError "None")

/-- Access `self.log['model_type']` from `_combine_vars` line 230: `AttributeError`
when the record has no `log`, `KeyError` when the log has no `model_type`;
a non-mapping log is modelled as `TypeError`. -/
def DataDict.getModelType (d : DataDict) : Except PyError Scalar :=
  match d.lookup "log" with
  | none => .error (.attributeError "log")
  | some (.pydict lg) =>
    match lg.lookup "model_type" with
    | some s => .ok s
    | none => .error (.keyError "model_type")
  | some _ => .error (.typeError "log is not a mapping")

/-- General path of `_combine_vars` for a nested `variables` record with
zero or several children (datadict.py lines 219-253), given the record `d`
and the unfiltered child list `csOrig`:

* drop children containing none of the requested `var_keys` columns
  (`var_keys=False` behaves like an empty key list — nothing survives);
* keep only the requested `obj_types` keys (`obj_types=False` keeps none:
  `make_list(False)` is `[False]`, equal to no string key);
* if the surviving dict has a child keyed by `log.model_type`, the shared
  stored table gains an `obj_id` column of zeros IN PLACE (`df['obj_id'] = 0`
  mutates the object also referenced by `d.variables`) — the returned record
  carries this mutation — and a locally re-indexed copy (with `obj_id`
  inserted before the last index level) replaces it in the working dict;
* an empty surviving dict yields `None`;
* otherwise the children are stacked under a new `obj_type` index level and,
  when `var_keys` is a key list, restricted to those columns.

When the source raises after the mutation (e.g. an unnamed index level), the
model reports the error without the mutated state; no claim exercises that
corner. -/
def generalCombineVars (d : DataDict) (csOrig : List (String × Child))
    (obj_types var_keys : Sel) : Except PyError (Option Child × DataDict) :=
  let cs1E : Except PyError (List (String × Child)) :=
    match var_keys with
    | .all => .ok csOrig
    | .keys ks => filterByVarKeys ks csOrig
    | .off => filterByVarKeys [] csOrig
  match cs1E with
  | .error e => .error e
  | .ok cs1 =>
    let cs2 :=
      match obj_types with
      | .all => cs1
      | .keys ks => cs1.filter fun p => p.1 ∈ ks
      | .off => cs1.filter fun _ => false
    match d.getModelType with
    | .error e => .error e
    | .ok mt =>
      let step3E : Except PyError (List (String × Child) × DataDict) :=
        match mt with
        | .str s =>
          if s ∈ cs2.map Prod.fst then
            match cs2.lookup s with
            | some (.table t) =>
              let tMut := t.setCol "obj_id" (Scalar.int 0)
              let dNew := d.setKey "variables"
                (.sub (upsert csOrig s (.table tMut)))
              (match resolveAllNames tMut.idxNames with
               | .error e => .error e
               | .ok names =>
                 let names2 := names.take (names.length - 1) ++ ["obj_id"] ++
                   names.drop (names.length - 1)
                 let tNew := tMut.reset_index.set_index names2
                 .ok (upsert cs2 s (.table tNew), dNew))
            | some (.pydict _) => .error (.attributeError "index")
            | some (.scalar _) =>
              .error (.typeError "does not support item assignment")
            | none => .error (.keyError s)
          else .ok (cs2, d)
        | _ => .ok (cs2, d)
      match step3E with
      | .error e => .error e
      | .ok (cs3, dAfter) =>
        if cs3.isEmpty then .ok (none, dAfter)
        else
          match cs3.mapM (fun p =>
            match p.2 with
            | .table t => some (p.1, t)
            | _ => (none : Option (String × Table))) with
          | none => .error (.typeError "cannot concatenate object")
          | some tables =>
            let df0 := concatDict tables
            match var_keys with
            | .all => .ok (some (.table df0), dAfter)
            | .keys ks =>
              match df0.selectColsE ks with
              | .error e => .error e
              | .ok dfF => .ok (some (.table dfF), dAfter)
            | .off => .error (.keyError "False")

/-- The source `DataDict._combine_vars(obj_types=True, var_keys=True)`
(datadict.py lines 201-253). Early cases, in source order: no `variables`
entry returns `None`; a `variables` entry that is already a table is
returned as is; a nested record with EXACTLY ONE child returns that child
unchanged, before any filtering or the `model_type` special case; a nested
record otherwise goes through the general path; any other shape raises
`TypeError` (a plain dict of scalars proceeds in the source but then fails
inside pandas — modelled as `TypeError` as well, a corner no claim rests
on). The updated record is returned alongside the result because the
general path mutates the stored `model_type` child in place. -/
def DataDict.combine_vars (d : DataDict) (obj_types var_keys : Sel) :
    Except PyError (Option Child × DataDict) :=
  match d.lookup "variables" with
  | none => .ok (none, d)
  | some (.table t) => .ok (some (.table t), d)
  | some (.sub [single]) => .ok (some single.2, d)
  | some (.sub cs) => generalCombineVars d cs obj_types var_keys
  | some (.pydict _) => .error (.typeError "cannot concatenate object")
  | some _ => .error (.typeError
      "DataDict.variables must be of type dict, agentpy.DataDict, or pandas.DataFrame.")

/-! ### Arrangement (`arrange`, datadict.py lines 288-367) -/

/-- A combined-variables result used downstream as a dataframe; the source
would fail inside pandas on a dict child, modelled as `TypeError`. -/
def Child.asTableE : Child → Except PyError Table
  | .table t => .ok t
  | _ => .error (.typeError "expected a DataFrame")

/-- Model of `pd.concat([a, b])` (row concatenation) on two `reset_index`
outputs: columns are united in order of appearance with NaN filling, rows
are stacked, and the unnamed range indexes are kept as they are (pandas
keeps the original, now duplicated, index values). -/
def rowConcat (a b : Table) : Table :=
  let allCols := (a.colNames ++ b.colNames).dedup
  { idxNames := [none],
    colNames := allCols,
    rows :=
      (a.rows.map fun r => (r.1, allCols.map fun c =>
        if c ∈ a.colNames then cellOf a.colNames r.2 c else Scalar.nan)) ++
      (b.rows.map fun r => (r.1, allCols.map fun c =>
        if c ∈ b.colNames then cellOf b.colNames r.2 c else Scalar.nan)) }

/-- Model of `pd.concat([df, dfp], axis=1)` in the aligned case where both
tables carry the same index (the only case arising in this code: `dfp` has
either been reindexed to `df`'s index or both are indexed by the same
`sample_id` range): columns of `dfp` are appended position-wise. -/
def concatCols (a b : Table) : Table :=
  { idxNames := a.idxNames,
    colNames := a.colNames ++ b.colNames,
    rows := (a.rows.zip b.rows).map fun p => (p.1.1, p.1.2 ++ p.2.2) }

/-- Model of `dfp.reindex(df.index, level='sample_id')`: give `dfp` the
index of `df`, propagating each `dfp` row to the `df` rows whose
`sample_id` index level carries the same value (missing matches are filled
with NaN, as in pandas). -/
def Table.reindexLevel (p : Table) (target : Table) (lvl : String) : Table :=
  let posT := target.idxNames.findIdx fun o => o = some lvl
  let posP := p.idxNames.findIdx fun o => o = some lvl
  { idxNames := target.idxNames,
    colNames := p.colNames,
    rows := target.rows.map fun r =>
      match p.rows.find? fun pr => pr.1.getD posP Scalar.nan = r.1.getD posT Scalar.nan with
      | some pr => (r.1, pr.2)
      | none => (r.1, p.colNames.map fun _ => Scalar.nan) }

/-- First entry `v[0]` of a parameter column in the single-run branch
`df[k] = v[0]`; an empty column raises `KeyError` in pandas. -/
def Table.firstCellE (p : Table) (c : String) : Except PyError Scalar :=
  match p.rows with
  | [] => .error (.keyError "0")
  | r :: _ => .ok (cellOf p.colNames r.2 c)

/-- The source `DataDict.arrange(variables=False, reporters=False,
parameters=False, obj_types=True, index=False)` (datadict.py lines 288-367):

* Step 1: a non-`False` `variables` invokes `_combine_vars` (which may
  mutate the record — the updated record is threaded through);
* Step 2: a non-`False` `reporters` takes the `reporters` table, restricted
  to the requested columns unless `True` (a missing `reporters` entry
  raises, attribute access on the record; a non-table entry is modelled as
  `TypeError`);
* Step 3: `parameters is True` invokes `_combine_pars(constants=False)`
  (constants EXCLUDED); any other non-`False` value invokes
  `_combine_pars()` and then selects the requested columns (`None[...]`
  raises `TypeError` when no parameters were found);
* Step 4: variables and reporters are reset, row-concatenated and re-indexed
  by the variable index names; the parameter table is then column-joined —
  broadcast by `sample_id` when it has more than one row (reindexed only if
  the frame has a multi-index), else assigned as constant columns
  `df[k] = v[0]`;
* Step 6: unless `index` is requested, the final index is flattened into
  columns with `reset_index`. -/
def DataDict.arrange (d : DataDict)
    (vars reporters parameters : Sel)
    (obj_types : Sel := .all) (index : Bool := false) :
    Except PyError (Option Table × DataDict) := do
  let (dfv, d) ←
    match vars with
    | .off => pure ((none : Option Child), d)
    | v => d.combine_vars obj_types v
  let dfm : Option Table ←
    match reporters with
    | .off => pure none
    | r =>
      match d.lookup "reporters" with
      | some (.table t) =>
        match r with
        | .keys ks => (t.selectColsE ks).map some
        | _ => pure (some t)
      | some _ => throw (.typeError "reporters is not a DataFrame")
      | none => throw (.attributeError "reporters")
  let dfp : Option Table ←
    match parameters with
    | .all => d.combine_pars true false
    | .off => pure none
    | .keys ks => do
      match (← d.combine_pars true true) with
      | none => throw (.typeError "NoneType object is not subscriptable")
      | some t => (t.selectColsE ks).map some
  let df : Option Table ←
    match dfv, dfm with
    | some v, some m => do
      let vt ← v.asTableE
      let index_keys := vt.idxNames
      let c := rowConcat m.reset_index vt.reset_index
      let names ← resolveAllNames index_keys
      pure (some (c.set_index names))
    | some v, none => (v.asTableE).map some
    | none, some m => pure (some m)
    | none, none => pure none
  let df : Option Table ←
    match dfp, df with
    | none, _ => pure df
    | some p, none => pure (some p)
    | some p, some t =>
      if p.nRows > 1 then
        let p' := if t.idxNames.length > 1 then p.reindexLevel t "sample_id" else p
        pure (some (concatCols t p'))
      else do
        let t' ← p.colNames.foldlM (fun acc c => do
          let v0 ← p.firstCellE c
          pure (acc.setCol c v0)) t
        pure (some t')
  match df with
  | none => return (none, d)
  | some t => return (some (if index then t else t.reset_index), d)

/-! ### Sobol sensitivity (`calc_sobol`, datadict.py lines 121-197) -/

/-- A `param_ranges` entry: a fixed value or a `(low, high)` range tuple. -/
inductive ParamRange where
  | fixed (v : Scalar)
  | range (low high : Int)
deriving DecidableEq, Repr

/-- Names bound in the scope of `DataDict.calc_sobol`, reconstructed from
datadict.py: the module imports (lines 6-13) bring in `pd`, `os`,
`listdir`, `makedirs`, `getmtime`, `join`, `AttrDict`, `make_list`,
`AgentpyError`, `json`, `np`; module level defines `NpEncoder`,
`_last_exp_id`, `DataDict`, `load`. `param_tuples_to_salib` and `sobol`
(imported only in analysis.py), the free variable `output`, and the bare
name `_sobol_set_df_index` (a class attribute, not a local or module name)
are all absent. -/
def datadictScope : List String :=
  ["pd", "os", "listdir", "makedirs", "getmtime", "join", "AttrDict",
   "make_list", "AgentpyError", "json", "np", "NpEncoder", "_last_exp_id",
   "DataDict", "load"]

/-- The source `DataDict.calc_sobol(param_ranges, reporters=None,
calc_second_order=False)` (datadict.py lines 126-197). STEP 1 first builds
the dict comprehension of tuple-valued ranges (lines 148-149, which
succeeds), then line 150 evaluates `param_tuples_to_salib(...)` — a name
that is not bound in the function, class, module, or builtin scope of
datadict.py, so the call raises `NameError` before anything else runs (the
body's later references to `output`, `sobol` and `_sobol_set_df_index` are
equally unbound). The remainder of the docstring's advertised behaviour is
therefore unreachable. -/
def DataDict.calc_sobol (d : DataDict)
    (param_ranges : List (String × ParamRange))
    (reporters : Option (List String) := none)
    (calc_second_order : Bool := false) : Except PyError DataDict :=
  let _param_ranges_tuples := param_ranges.filter fun p =>
    match p.2 with
    | .range _ _ => true
    | .fixed _ => false
  if "param_tuples_to_salib" ∈ datadictScope then
    .ok d
  else
    .error (.nameError "name param_tuples_to_salib is not defined")

/-! ### Persistence (`save` / `_load`, datadict.py lines 381-521)

Files are modelled structurally: a CSV file keeps its header strings and
scalar rows, a JSON file keeps the serialized dict or scalar. Filenames are
modelled by their stem; the extension is determined by the file kind
(`.csv` for tables, `.json` for everything else), exactly as the source
writes them, and the `'variables_' in file` / `'parameters_' in file`
substring routing of `_load` is equivalent on stems because the extensions
contain no underscore. Text serialization is abstracted; it is faithful for
the integer-valued cells of the data model. -/

/-- An output file: a CSV (header and cell rows, as written by `to_csv`) or
a JSON document (a flat scalar dict, written through `NpEncoder`, or a bare
scalar). -/
inductive File where
  | csv (header : List String) (rows : List (List Scalar))
  | jsonDict (d : List (String × Scalar))
  | jsonScalar (s : Scalar)
deriving DecidableEq, Repr

/-- Model of `df.to_csv(path)`: one header cell per index level (empty for
an unnamed level, as pandas writes it) followed by the column names; each
row writes its index cells then its column cells. -/
def Table.to_csv (t : Table) : File :=
  .csv (t.idxNames.map (fun o => o.getD "") ++ t.colNames)
    (t.rows.map fun r => r.1 ++ r.2)

/-- The files written by `DataDict.save` for one top-level entry (datadict.py
lines 422-443): a table becomes `{key}.csv`; a nested record contributes
`{key}_{k}.csv` per child table and `{key}_{k}.json` per child dict — any
other child kind is silently skipped; a plain dict or scalar becomes
`{key}.json` (all model values are JSON-serializable, so the warn-and-remove
branch for unserializable objects is never taken). -/
def Value.saveFiles (key : String) : Value → List (String × File)
  | .table t => [(key, t.to_csv)]
  | .sub cs => cs.flatMap fun p =>
    match p.2 with
    | .table t => [(key ++ "_" ++ p.1, t.to_csv)]
    | .pydict pd => [(key ++ "_" ++ p.1, File.jsonDict pd)]
    | .scalar _ => []
  | .pydict pd => [(key, File.jsonDict pd)]
  | .scalar s => [(key, File.jsonScalar s)]

/-- All files written by `DataDict.save`, in entry order. -/
def DataDict.saveFiles (d : DataDict) : List (String × File) :=
  d.entries.flatMap fun p => p.2.saveFiles p.1

/-- The fixed index vocabulary `i_cols` of `load_file` (datadict.py line
458). -/
def iCols : List String := ["sample_id", "iteration", "obj_id", "t"]

/-- Model of `pd.read_csv` followed by the index reconstruction of
`load_file` (datadict.py lines 462-466): the header names become the
columns (an empty header cell, from an unnamed index level, is named
`Unnamed: i` by pandas), the frame gets a default unnamed `RangeIndex`,
and the columns drawn from the fixed vocabulary — in vocabulary order —
become the index if any are present. `readCsvNames` performs the header
renaming. -/
def readCsvNames (header : List String) : List String :=
  header.enum.map fun p =>
    if p.2 = "" then "Unnamed: " ++ toString p.1 else p.2

/-- Frame produced by `pd.read_csv` before the index reconstruction: the
renamed header as columns, a default unnamed `RangeIndex`. -/
def readCsvFrame (header : List String) (rs : List (List Scalar)) : Table :=
  { idxNames := [none], colNames := readCsvNames header,
    rows := rs.enum.map fun p => ([Scalar.int p.1], p.2) }

/-- Assembled `read_csv` plus `load_file`'s index reconstruction. -/
def readCsv (header : List String) (rs : List (List Scalar)) : Table :=
  if (iCols.filter fun i => i ∈ readCsvNames header).isEmpty then
    readCsvFrame header rs
  else
    (readCsvFrame header rs).set_index
      (iCols.filter fun i => i ∈ readCsvNames header)

/-- The value reconstructed from one file by `load_file`: a CSV becomes a
re-indexed table, a JSON dict becomes an `AttrDict` (same mapping), a JSON
scalar stays a scalar. -/
def File.loadValue : File → Value
  | .csv h rs => .table (readCsv h rs)
  | .jsonDict d => .pydict d
  | .jsonScalar s => .scalar s

/-- A loaded value stored as a child of the `variables` / `parameters`
record. -/
def Value.asChild : Value → Child
  | .table t => .table t
  | .pydict d => .pydict d
  | .scalar s => .scalar s
  | .sub _ => .scalar Scalar.nan

/-- Nested assignment `self[section][key] = obj` of `_load`: create the
section record if missing; if the section key already holds a non-record
value the source would mutate that object through item assignment — a
corner outside the shapes produced by `save`, modelled as replacing it. -/
def DataDict.setNested (d : DataDict) (sect key : String) (c : Child) :
    DataDict :=
  match d.lookup sect with
  | some (.sub cs) => d.setKey sect (.sub (upsert cs key c))
  | _ => d.setKey sect (.sub [(key, c)])

/-- Processing of one directory entry by the `_load` loop (datadict.py lines
504-520): a filename containing `variables_` is nested under `variables`
with the routing prefix stripped from its stem; likewise for `parameters_`;
anything else becomes a top-level entry keyed by its stem. -/
def loadOne (d : DataDict) (stem : String) (f : File) : DataDict :=
  if strContains stem "variables_" then
    d.setNested "variables" (strReplace stem "variables_" "") f.loadValue.asChild
  else if strContains stem "parameters_" then
    d.setNested "parameters" (strReplace stem "parameters_" "") f.loadValue.asChild
  else
    d.setKey stem f.loadValue

/-- The `_load` loop over a directory listing, starting from the empty
record created by `load`. -/
def loadFiles (files : List (String × File)) : DataDict :=
  files.foldl (fun d p => loadOne d p.1 p.2) ⟨[]⟩

/-- Experiment-name resolution of `save` (datadict.py lines 404-411): the
passed name, else `log['model_type']`, else `Unnamed`; spaces become
underscores. -/
def DataDict.resolveExpName (d : DataDict) (exp_name : Option String) : String :=
  let n :=
    match exp_name with
    | some n => n
    | none =>
      match d.lookup "log" with
      | some (.pydict lg) =>
        match lg.lookup "model_type" with
        | some (.str s) => s
        | _ => "Unnamed"
      | _ => "Unnamed"
  strReplace n " " "_"

/-- The directory-creating part of `DataDict.save` (datadict.py lines
400-419) over a listing of the sibling directories already present under
`path`: resolve the name, choose the id (`_last_exp_id + 1` when none is
passed), and return the new directory name `{exp_name}_{exp_id}` together
with the files written inside it. -/
def DataDict.save (d : DataDict) (exp_name : Option String)
    (exp_id : Option Int) (listing : List String) :
    Except PyError (String × List (String × File)) :=
  match (match exp_id with
    | some i => Except.ok i
    | none =>
      match last_exp_id (d.resolveExpName exp_name) listing with
      | .error e => .error e
      | .ok i => .ok (i + 1) : Except PyError Int) with
  | .error e => .error e
  | .ok id =>
    .ok (d.resolveExpName exp_name ++ "_" ++ toString id, d.saveFiles)

/-! ### Example records used by the scenario claims and witnesses -/

/-- A 4-row sample table of the varying parameter `x`, indexed by
`sample_id`. -/
def egSample : Table :=
  { idxNames := [some "sample_id"], colNames := ["x"],
    rows := [([.int 0], [.int 10]), ([.int 1], [.int 11]),
             ([.int 2], [.int 12]), ([.int 3], [.int 13])] }

/-- A 4-row reporters table with one column `out`, indexed by `sample_id`. -/
def egReporters : Table :=
  { idxNames := [some "sample_id"], colNames := ["out"],
    rows := [([.int 0], [.int 20]), ([.int 1], [.int 21]),
             ([.int 2], [.int 22]), ([.int 3], [.int 23])] }

/-- The scenario record of the spec: `log.sample_size = 4`,
`parameters.sample` the 4-row table of `x`, `parameters.constants = {y: 1}`,
`reporters` a 4-row table with column `out`. -/
def egRecord : DataDict :=
  ⟨[("log", .pydict [("model_type", .str "M"), ("sample_size", .int 4)]),
    ("parameters", .sub [("constants", .pydict [("y", .int 1)]),
                         ("sample", .table egSample)]),
    ("reporters", .table egReporters)]⟩

/-- The table produced by `egRecord.arrange(reporters=True, parameters=True)`:
four rows, flattened columns `sample_id`, `out`, `x` — and no `y`, because
`parameters=True` invokes `_combine_pars(constants=False)`. -/
def egArranged : Table :=
  { idxNames := [none], colNames := ["sample_id", "out", "x"],
    rows := [([.int 0], [.int 0, .int 20, .int 10]),
             ([.int 1], [.int 1, .int 21, .int 11]),
             ([.int 2], [.int 2, .int 22, .int 12]),
             ([.int 3], [.int 3, .int 23, .int 13])] }

/-! ### C1 — calc_sobol -/

/-- C1: the spec claims `calc_sobol` with `calc_second_order=False` produces
two tables, stores them under `sensitivity` / `sensitivity_conf` and returns
the augmented record. The code cannot do any of this: for every record and
every argument list, the call raises `NameError` at its first real statement
(datadict.py line 150 references `param_tuples_to_salib`, unbound in the
module — as are `output`, `sobol` and `_sobol_set_df_index`), so no table is
ever computed or stored. The claim matches the documented intent; the code
is the slip. -/
theorem c1_calc_sobol_always_name_error (d : DataDict)
    (pr : List (String × ParamRange)) (rep : Option (List String))
    (so : Bool) :
    d.calc_sobol pr rep so =
      .error (.nameError "name param_tuples_to_salib is not defined") := rfl

/-! ### C4 — the scenario for combine_parameters and arrange -/

/-- C4, counterexample: in the spec's scenario, `arrange(reporters=True,
parameters=True)` does NOT include the constant parameter `y` among its
columns — `parameters=True` selects only varying parameters — refuting the
claimed column set of sample_id, x, y and out. -/
theorem c4_arrange_lacks_y :
    egRecord.arrange .off .all .all = .ok (some egArranged, egRecord) ∧
    "y" ∉ egArranged.colNames := by
  exact ⟨rfl, by decide⟩

/-- C4, amended: `combine_parameters()` (defaults: sample and constants)
returns a 4-row table with columns `x` and `y`, with `y` constant at `1`;
`arrange(reporters=True, parameters=True)` returns a 4-row flattened table
with columns `sample_id`, `out` and `x` — the constant `y` is excluded
because `parameters=True` invokes `_combine_pars(constants=False)`. -/
theorem c4_scenario_amended :
    (∃ t, egRecord.combine_pars true true = .ok (some t) ∧
      t.nRows = 4 ∧ t.colNames = ["x", "y"] ∧
      t.getCol "y" = List.replicate 4 (Scalar.int 1)) ∧
    egRecord.arrange .off .all .all = .ok (some egArranged, egRecord) ∧
    egArranged.nRows = 4 ∧
    egArranged.colNames = ["sample_id", "out", "x"] := by
  refine ⟨⟨egSample.setCol "y" (Scalar.int 1), rfl, by decide, by decide, by decide⟩, rfl, by decide, by decide⟩

/-! ### C6 — single-child identity of combine_variables -/

/-- C6: when the `variables` section is a nested record with exactly one
child table, `_combine_vars` returns that child unchanged — and leaves the
record untouched — whatever `obj_types` and `var_keys` are: the single-child
case returns before any filtering, `model_type` handling, or column
selection. -/
theorem c6_single_child_identity (d : DataDict) (ot vk : Sel)
    (k : String) (t : Table)
    (h : d.lookup "variables" = some (.sub [(k, .table t)])) :
    d.combine_vars ot vk = .ok (some (.table t), d) := by
  unfold DataDict.combine_vars
  rw [h]

/-- C6 witness: the identity law at a concrete record with a single child
table. -/
theorem c6_single_child_identity_witness :
    (DataDict.mk [("variables", .sub [("M", .table egReporters)])]).combine_vars
      .off (.keys ["nope"]) = .ok (some (.table egReporters),
        DataDict.mk [("variables", .sub [("M", .table egReporters)])]) :=
  c6_single_child_identity _ .off (.keys ["nope"]) "M" egReporters rfl

/-! ### C8 — subset-based record equality -/

/-- A small record, and the same record extended by an extra key. -/
def egSmall : DataDict := ⟨[("log", .pydict [("model_type", .str "M")])]⟩

/-- The record `egSmall` plus an extra `reporters` entry absent from it. -/
def egBig : DataDict :=
  ⟨[("log", .pydict [("model_type", .str "M")]),
    ("reporters", .table egReporters)]⟩

/-- C8: `DataDict.__eq__` is subset-based — whenever every key of `a` is
present in `b` with an equal (element-wise for tables) value, `a == b`
returns `True` even if `b` has extra keys; in particular `a == b` does not
imply `b == a`, witnessed by a concrete pair where the comparison holds one
way only. -/
theorem c8_eq_subset_based :
    (∀ a b : DataDict,
      (∀ p ∈ a.entries, ∃ w, b.lookup p.1 = some w ∧ valueEq p.2 w = true) →
      dataDictEq a b = true) ∧
    dataDictEq egSmall egBig = true ∧ dataDictEq egBig egSmall = false := by
  refine ⟨fun a b h => ?_, by decide, by decide⟩
  unfold dataDictEq
  rw [List.all_eq_true]
  intro p hp
  obtain ⟨w, hw, he⟩ := h p hp
  rw [hw]
  exact he

/-- C8 witness: the subset direction applied to the concrete pair. -/
theorem c8_eq_subset_based_witness : dataDictEq egSmall egBig = true :=
  c8_eq_subset_based.1 egSmall egBig (by decide)

/-! ### C7 — sequential experiment ids on save -/

/-- C7: saving a record holding one table entry `reporters` into a fresh
path (no sibling directories) writes directory `{name}_1` containing the
file `reporters.csv`; a second save without an explicit id, with `{name}_1`
now present, writes `{name}_2`. Shown for the chosen name `exp`. -/
theorem c7_sequential_ids (d : DataDict) (t : Table)
    (h : d.entries = [("reporters", .table t)]) :
    d.save (some "exp") none [] = .ok ("exp_1", [("reporters", t.to_csv)]) ∧
    d.save (some "exp") none ["exp_1"] =
      .ok ("exp_2", [("reporters", t.to_csv)]) := by
  obtain ⟨es⟩ := d
  simp only [DataDict.mk.injEq] at h
  subst h
  constructor <;> rfl

/-- C7 witness: both saves at the concrete 3-row reporters record. -/
theorem c7_sequential_ids_witness :
    (DataDict.mk [("reporters", .table
      { idxNames := [some "sample_id"], colNames := ["out"],
        rows := [([.int 0], [.int 5]), ([.int 1], [.int 6]),
                 ([.int 2], [.int 7])] })]).save (some "exp") none [] =
      .ok ("exp_1", [("reporters", Table.to_csv
        { idxNames := [some "sample_id"], colNames := ["out"],
          rows := [([.int 0], [.int 5]), ([.int 1], [.int 6]),
                   ([.int 2], [.int 7])] })]) :=
  (c7_sequential_ids _ _ rfl).1

/-! ### C10 — substring-based experiment-id matching -/

/-- A left fold of `max` lands on one of the folded values. -/
theorem foldl_max_mem (is : List Int) : ∀ i : Int, is.foldl max i ∈ i :: is := by
  induction is with
  | nil => intro i; simp
  | cons a as ih =>
    intro i
    have h := ih (max i a)
    simp only [List.foldl_cons]
    rcases List.mem_cons.1 h with h1 | h1
    · rw [h1]
      rcases max_choice i a with hm | hm <;> rw [hm] <;> simp
    · simp [h1]

/-- Every folded value is bounded by a left fold of `max`. -/
theorem le_foldl_max (is : List Int) :
    ∀ i : Int, ∀ j ∈ i :: is, j ≤ is.foldl max i := by
  induction is with
  | nil => intro i j hj; simp at hj; simp [hj]
  | cons a as ih =>
    intro i j hj
    simp only [List.foldl_cons]
    rcases List.mem_cons.1 hj with rfl | hj1
    · exact le_trans (le_max_left j a) (ih (max j a) _ (List.mem_cons_self _ _))
    · rcases List.mem_cons.1 hj1 with rfl | hj2
      · exact le_trans (le_max_right i j) (ih (max i j) _ (List.mem_cons_self _ _))
      · exact ih (max i a) j (List.mem_cons_of_mem _ hj2)

/-- C10: `_last_exp_id` matches directory names by SUBSTRING containment —
whenever the directories whose names contain the experiment name anywhere
all parse to integer suffixes, the function returns the maximum of exactly
those suffixes; concretely, with only the directory `ab_5` present,
resolving the different experiment name `a` yields `5`, and saving under
name `a` therefore selects id `6`. -/
theorem c10_substring_id_matching :
    (∀ (name : String) (listing : List String) (ids : List Int),
      (listing.filter fun s => strContains s name).mapM
          (fun s => pyInt ⟨(splitChar '_' s.toList).getLastD []⟩) = some ids →
      ids ≠ [] →
      ∃ m, last_exp_id name listing = .ok m ∧ m ∈ ids ∧ ∀ i ∈ ids, i ≤ m) ∧
    last_exp_id "a" ["ab_5"] = .ok 5 ∧
    (DataDict.mk []).save (some "a") none ["ab_5"] = .ok ("a_6", []) := by
  refine ⟨fun name listing ids hmap hne => ?_, rfl, rfl⟩
  unfold last_exp_id
  rcases he : (listing.filter fun s => strContains s name).isEmpty with _ | _
  · simp only [he, Bool.false_eq_true, if_false, hmap]
    rcases ids with _ | ⟨i, is⟩
    · exact absurd rfl hne
    · exact ⟨is.foldl max i, rfl, foldl_max_mem is i, le_foldl_max is i⟩
  · rw [List.isEmpty_iff] at he
    rw [he] at hmap
    simp only [List.mapM_nil] at hmap
    cases hmap
    exact absurd rfl hne

/-- C10 witness: both listed directories contain `b`, and the resolved id is
the larger suffix `7` coming from the foreign directory `xb_7`. -/
theorem c10_substring_id_matching_witness :
    ∃ m, last_exp_id "b" ["b_2", "xb_7"] = .ok m ∧
      m ∈ ([2, 7] : List Int) ∧ ∀ i ∈ ([2, 7] : List Int), i ≤ m :=
  c10_substring_id_matching.1 "b" ["b_2", "xb_7"] [2, 7] rfl (by decide)

/-! ### C5 — type errors in combine_parameters -/

/-- Data-model invariant on the `log` section used by the error-shape
characterization: when present, `log` is a mapping whose `sample_size`, when
present, is an integer (a Python `bool` counts). A record without a `log`
entry is allowed — the broadcast path then fails with `AttributeError`, not
`TypeError`. -/
def WFlog (d : DataDict) : Prop :=
  match d.lookup "log" with
  | none => True
  | some (.pydict lg) =>
    match lg.lookup "sample_size" with
    | none => True
    | some (.int _) => True
    | some (.bool _) => True
    | some _ => False
  | some _ => False

/-- Under the `log` invariant, broadcasting a parameter dict never raises
`TypeError` (it either succeeds or raises `AttributeError` for a missing
`log`). -/
theorem dict_pars_to_df_no_type_error (d : DataDict) (hlog : WFlog d)
    (pars : List (String × Scalar)) (msg : String) :
    d.dict_pars_to_df pars ≠ .error (.typeError msg) := by
  rcases hl : d.lookup "log" with _ | v
  · simp [DataDict.dict_pars_to_df, hl]
  · rcases v with t | lg | s | cs
    · simp [WFlog, hl] at hlog
    · rcases hs : lg.lookup "sample_size" with _ | w
      · simp [DataDict.dict_pars_to_df, hl, hs]
      · rcases w with n | s2 | b | _
        · simp [DataDict.dict_pars_to_df, hl, hs]
        · simp [WFlog, hl, hs] at hlog
        · simp [DataDict.dict_pars_to_df, hl, hs]
        · simp [WFlog, hl, hs] at hlog
    · simp [WFlog, hl] at hlog
    · simp [WFlog, hl] at hlog

/-- Distinct error payloads stay distinct under `Except.error`. -/
theorem error_ne_of_ne {α : Type} {e1 e2 : PyError} (h : e1 ≠ e2) :
    (Except.error e1 : Except PyError α) ≠ .error e2 :=
  fun hh => h (Except.error.inj hh)

/-- The candidate frame for a nested `parameters` record never carries a
`TypeError` (given the `log` invariant). -/
theorem combineParsFrame_sub_no_type_error (d : DataDict) (hlog : WFlog d)
    (samp consts : Bool) (ps : List (String × Child)) (msg : String) :
    combineParsFrame d samp consts (.sub ps) ≠ .error (.typeError msg) := by
  intro hc
  simp only [combineParsFrame] at hc
  split at hc
  · split at hc
    · split at hc
      · split at hc
        · exact Except.noConfusion hc
        · exact error_ne_of_ne (by simp) hc
      · exact Except.noConfusion hc
    · exact error_ne_of_ne (by simp) hc
  · split at hc
    · split at hc
      · exact dict_pars_to_df_no_type_error d hlog _ msg hc
      · exact error_ne_of_ne (by simp) hc
    · exact Except.noConfusion hc

/-- C5, amended: `_combine_pars` raises `TypeError` exactly when the
`parameters` section is present but is neither a nested record nor a flat
mapping with constants requested — that is: always for a section that is
neither a dict nor a nested record, AND ALSO for a flat dict when constants
are not requested (`isinstance(self.parameters, dict) and constants` fails
and the flow falls into the `TypeError` branch). A nested record never
produces a `TypeError`, whatever `sample`/`constants` are (given the `log`
invariant); a missing section returns `None` without error. -/
theorem c5_type_error_iff (d : DataDict) (samp consts : Bool)
    (hlog : WFlog d) :
    (∃ msg, d.combine_pars samp consts = .error (.typeError msg)) ↔
      (match d.lookup "parameters" with
       | some (.sub _) => False
       | some (.pydict _) => consts = false
       | some (.table _) => True
       | some (.scalar _) => True
       | none => False) := by
  rcases hp : d.lookup "parameters" with _ | v
  · simp [DataDict.combine_pars, hp]
  · rcases v with t | p | s | ps
    · refine iff_of_true
        ⟨"DataDict.parameters must be a dict or DataDict.", ?_⟩ trivial
      simp [DataDict.combine_pars, hp, combineParsFrame]
    · rcases consts with _ | _
      · refine iff_of_true
          ⟨"DataDict.parameters must be a dict or DataDict.", ?_⟩ rfl
        simp [DataDict.combine_pars, hp, combineParsFrame]
      · refine iff_of_false ?_ (by simp)
        rintro ⟨msg, hc⟩
        simp only [DataDict.combine_pars, hp] at hc
        rcases he : combineParsFrame d samp true (.pydict p) with e | t
        · rw [he] at hc
          cases hc
          simp only [combineParsFrame, if_true] at he
          exact dict_pars_to_df_no_type_error d hlog p msg he
        · rw [he] at hc
          have hc2 : (if t.shape00 then (Except.ok none : Except PyError (Option Table))
              else .ok (some t)) = .error (.typeError msg) := hc
          split at hc2 <;> exact Except.noConfusion hc2
    · refine iff_of_true
        ⟨"DataDict.parameters must be a dict or DataDict.", ?_⟩ trivial
      simp [DataDict.combine_pars, hp, combineParsFrame]
    · refine iff_of_false ?_ (by simp)
      rintro ⟨msg, hc⟩
      simp only [DataDict.combine_pars, hp] at hc
      rcases he : combineParsFrame d samp consts (.sub ps) with e | t
      · rw [he] at hc
        cases hc
        exact combineParsFrame_sub_no_type_error d hlog samp consts ps msg he
      · rw [he] at hc
        have hc2 : (if t.shape00 then (Except.ok none : Except PyError (Option Table))
            else .ok (some t)) = .error (.typeError msg) := hc
        split at hc2 <;> exact Except.noConfusion hc2

/-- C5, counterexample: a record whose `parameters` section IS one of the two
valid shapes — a flat mapping — still raises the `TypeError` when constants
are not requested, refuting the claimed "no type error for either shape
regardless of which of sample/constants are requested". -/
theorem c5_flat_dict_type_error :
    (DataDict.mk [("parameters", .pydict [("x", .int 1)])]).combine_pars
      true false =
      .error (.typeError "DataDict.parameters must be a dict or DataDict.") := rfl

/-- C5 witness: the amended characterization applied at the counterexample
record (its `log` is absent, so the invariant holds trivially). -/
theorem c5_type_error_iff_witness :
    ∃ msg, (DataDict.mk [("parameters", .pydict [("x", .int 1)])]).combine_pars
      true false = .error (.typeError msg) :=
  (c5_type_error_iff (DataDict.mk [("parameters", .pydict [("x", .int 1)])])
    true false trivial).mpr rfl

/-! ### C3 — combine_parameters with sample and constants -/

/-- Looking up a column in a row whose cells were rewritten at column `c`
finds the new value `v`. -/
theorem lookup_zip_zipWith_self (names : List String) :
    ∀ (cs : List Scalar) (c : String) (v : Scalar),
    cs.length = names.length → c ∈ names →
    (names.zip (List.zipWith (fun n x => if n = c then v else x) names cs)).lookup c
      = some v := by
  induction names with
  | nil => intro cs c v _ hc; exact absurd hc (List.not_mem_nil c)
  | cons n ns ih =>
    intro cs c v hlen hc
    rcases cs with _ | ⟨x, xs⟩
    · exact absurd hlen.symm (Nat.succ_ne_zero _)
    · simp only [List.zipWith_cons_cons, List.zip_cons_cons, List.lookup_cons]
      rcases hbe : c == n with _ | _
      · refine ih xs c v (Nat.succ_injective hlen) ?_
        rcases List.mem_cons.1 hc with rfl | h
        · simp at hbe
        · exact h
      · have : n = c := (beq_iff_eq.1 hbe).symm
        simp [this]

/-- Rewriting a different column `c'` leaves the lookup at `c` unchanged. -/
theorem lookup_zip_zipWith_ne (names : List String) :
    ∀ (cs : List Scalar) (c c' : String) (v : Scalar), c' ≠ c →
    (names.zip (List.zipWith (fun n x => if n = c' then v else x) names cs)).lookup c
      = (names.zip cs).lookup c := by
  induction names with
  | nil => intro cs c c' v _; simp
  | cons n ns ih =>
    intro cs c c' v hne
    rcases cs with _ | ⟨x, xs⟩
    · simp
    · simp only [List.zipWith_cons_cons, List.zip_cons_cons, List.lookup_cons]
      rcases hbe : c == n with _ | _
      · exact ih xs c c' v hne
      · have hn : n = c := (beq_iff_eq.1 hbe).symm
        have : ¬ n = c' := fun h => hne (h.symm.trans hn)
        simp [this]

/-- Appending a fresh column makes it findable at its value. -/
theorem lookup_zip_append_self (names : List String) :
    ∀ (cs : List Scalar) (c : String) (v : Scalar),
    cs.length = names.length → c ∉ names →
    ((names ++ [c]).zip (cs ++ [v])).lookup c = some v := by
  induction names with
  | nil =>
    intro cs c v hlen _
    rcases cs with _ | ⟨x, xs⟩
    · simp
    · simp at hlen
  | cons n ns ih =>
    intro cs c v hlen hc
    rcases cs with _ | ⟨x, xs⟩
    · exact absurd hlen.symm (Nat.succ_ne_zero _)
    · simp only [List.cons_append, List.zip_cons_cons, List.lookup_cons]
      rcases hbe : c == n with _ | _
      · exact ih xs c v (Nat.succ_injective hlen)
          (fun h => hc (List.mem_cons_of_mem _ h))
      · have : n = c := (beq_iff_eq.1 hbe).symm
        exact absurd (this ▸ List.mem_cons_self n ns) hc

/-- Appending a column named `c'` does not affect the lookup at `c ≠ c'`. -/
theorem lookup_zip_append_ne (names : List String) :
    ∀ (cs : List Scalar) (c c' : String) (v : Scalar),
    cs.length = names.length → c' ≠ c →
    ((names ++ [c']).zip (cs ++ [v])).lookup c = (names.zip cs).lookup c := by
  induction names with
  | nil =>
    intro cs c c' v hlen hne
    rcases cs with _ | _
    · simp only [List.nil_append, List.zip_nil_right, List.zip_cons_cons,
        List.lookup_cons, List.lookup_nil]
      rcases hbe : c == c' with _ | _
      · rfl
      · exact absurd (beq_iff_eq.1 hbe).symm hne
    · simp at hlen
  | cons n ns ih =>
    intro cs c c' v hlen hne
    rcases cs with _ | ⟨x, xs⟩
    · exact absurd hlen.symm (Nat.succ_ne_zero _)
    · simp only [List.cons_append, List.zip_cons_cons, List.lookup_cons]
      rcases hbe : c == n with _ | _
      · exact ih xs c c' v (Nat.succ_injective hlen) hne
      · rfl

/-- Assignment `df[c] = v` keeps the number of rows. -/
theorem Table.setCol_nRows (t : Table) (c : String) (v : Scalar) :
    (t.setCol c v).nRows = t.nRows := by
  unfold Table.setCol Table.nRows
  split <;> simp

/-- Assignment `df[c] = v` keeps rows well-sized. -/
theorem Table.setCol_sized (t : Table) (c : String) (v : Scalar)
    (h : t.sized) : (t.setCol c v).sized := by
  unfold Table.setCol
  split
  · intro r hr
    obtain ⟨r0, hr0, rfl⟩ := List.mem_map.1 hr
    obtain ⟨h1, h2⟩ := h r0 hr0
    simp [h1, h2]
  · intro r hr
    obtain ⟨r0, hr0, rfl⟩ := List.mem_map.1 hr
    obtain ⟨h1, h2⟩ := h r0 hr0
    simp [h1, h2]

/-- Assignment `df[c] = v` keeps the existing columns and adds `c`. -/
theorem Table.setCol_colNames (t : Table) (c : String) (v : Scalar) :
    t.colNames ⊆ (t.setCol c v).colNames ∧ c ∈ (t.setCol c v).colNames := by
  unfold Table.setCol
  split
  · exact ⟨fun x hx => hx, by assumption⟩
  · exact ⟨fun x hx => List.mem_append.2 (Or.inl hx),
      List.mem_append.2 (Or.inr (List.mem_singleton.2 rfl))⟩

/-- After `df[c] = v`, column `c` holds `v` in every row. -/
theorem Table.getCol_setCol_self (t : Table) (c : String) (v : Scalar)
    (h : t.sized) :
    (t.setCol c v).getCol c = List.replicate t.nRows v := by
  unfold Table.setCol Table.getCol Table.nRows
  split
  · rename_i hmem
    rw [List.eq_replicate_iff]
    constructor
    · simp
    · intro b hb
      simp only [List.map_map, List.mem_map, Function.comp] at hb
      obtain ⟨r0, hr0, rfl⟩ := hb
      unfold cellOf
      rw [lookup_zip_zipWith_self t.colNames r0.2 c v (h r0 hr0).2 hmem]
      rfl
  · rename_i hmem
    rw [List.eq_replicate_iff]
    constructor
    · simp
    · intro b hb
      simp only [List.map_map, List.mem_map, Function.comp] at hb
      obtain ⟨r0, hr0, rfl⟩ := hb
      unfold cellOf
      rw [lookup_zip_append_self t.colNames r0.2 c v (h r0 hr0).2 hmem]
      rfl

/-- After `df[c'] = v` with `c' ≠ c`, column `c` is unchanged. -/
theorem Table.getCol_setCol_ne (t : Table) (c c' : String) (v : Scalar)
    (h : t.sized) (hne : c' ≠ c) :
    (t.setCol c' v).getCol c = t.getCol c := by
  unfold Table.setCol Table.getCol
  split
  · simp only [List.map_map]
    refine List.map_congr_left fun r0 hr0 => ?_
    simp only [Function.comp_apply]
    unfold cellOf
    rw [lookup_zip_zipWith_ne t.colNames r0.2 c c' v hne]
  · simp only [List.map_map]
    refine List.map_congr_left fun r0 hr0 => ?_
    simp only [Function.comp_apply]
    unfold cellOf
    rw [lookup_zip_append_ne t.colNames r0.2 c c' v (h r0 hr0).2 hne]

/-- Folding further constant assignments over other keys leaves a column
unchanged. -/
theorem foldl_setCol_getCol_preserved (ks : List (String × Scalar)) :
    ∀ (t : Table) (c : String), t.sized → c ∉ ks.map Prod.fst →
    (ks.foldl (fun acc p => acc.setCol p.1 p.2) t).getCol c = t.getCol c := by
  induction ks with
  | nil => intro t c _ _; rfl
  | cons p ps ih =>
    intro t c hsz hc
    simp only [List.map_cons, List.mem_cons, not_or] at hc
    simp only [List.foldl_cons]
    rw [ih (t.setCol p.1 p.2) c (t.setCol_sized p.1 p.2 hsz) hc.2]
    exact t.getCol_setCol_ne c p.1 p.2 hsz (fun h => hc.1 h.symm)

/-- Folding the constant assignments `dfp[k] = v` over a table: the row count
is kept, rows stay well-sized, existing columns survive, and every assigned
key ends up as a column constant at its value (keys assumed distinct, as in
a Python dict). -/
theorem foldl_setCol_spec (ks : List (String × Scalar)) :
    ∀ t : Table, t.sized → (ks.map Prod.fst).Nodup →
    (ks.foldl (fun acc p => acc.setCol p.1 p.2) t).nRows = t.nRows ∧
    (ks.foldl (fun acc p => acc.setCol p.1 p.2) t).sized ∧
    t.colNames ⊆ (ks.foldl (fun acc p => acc.setCol p.1 p.2) t).colNames ∧
    ∀ p ∈ ks, p.1 ∈ (ks.foldl (fun acc p => acc.setCol p.1 p.2) t).colNames ∧
      (ks.foldl (fun acc p => acc.setCol p.1 p.2) t).getCol p.1 =
        List.replicate t.nRows p.2 := by
  induction ks with
  | nil => intro t hsz _; exact ⟨rfl, hsz, fun x hx => hx, by simp⟩
  | cons q qs ih =>
    intro t hsz hnd
    simp only [List.map_cons, List.nodup_cons] at hnd
    obtain ⟨hq, hqs⟩ := hnd
    have hsz1 := t.setCol_sized q.1 q.2 hsz
    obtain ⟨ihn, ihs, ihsub, ihall⟩ := ih (t.setCol q.1 q.2) hsz1 hqs
    simp only [List.foldl_cons]
    refine ⟨by rw [ihn, t.setCol_nRows], ihs,
      fun x hx => ihsub ((t.setCol_colNames q.1 q.2).1 hx), ?_⟩
    intro p hp
    rcases List.mem_cons.1 hp with rfl | hp2
    · refine ⟨ihsub (t.setCol_colNames p.1 p.2).2, ?_⟩
      rw [foldl_setCol_getCol_preserved qs (t.setCol p.1 p.2) p.1 hsz1 hq,
        t.getCol_setCol_self p.1 p.2 hsz]
    · obtain ⟨hm, hg⟩ := ihall p hp2
      refine ⟨hm, ?_⟩
      rw [hg, t.setCol_nRows]

/-- C3: on a record whose `parameters` section is a nested record with an
`N`-row sample table and `k` distinct constants, `_combine_pars(sample=True,
constants=True)` returns a table with exactly `N` rows and at least `k`
columns — one per constant, each constant's column holding its value in
every row. (`N` is positive, as `log.sample_size` is; the sample's rows are
well-sized.) -/
theorem c3_combine_parameters (d : DataDict) (ps : List (String × Child))
    (t : Table) (ks : List (String × Scalar)) (N : Nat)
    (hp : d.lookup "parameters" = some (.sub ps))
    (hs : ps.lookup "sample" = some (.table t))
    (hk : ps.lookup "constants" = some (.pydict ks))
    (hsz : t.sized) (hN : t.nRows = N) (hpos : 0 < N)
    (hnd : (ks.map Prod.fst).Nodup) :
    ∃ t', d.combine_pars true true = .ok (some t') ∧
      t'.nRows = N ∧ ks.length ≤ t'.colNames.length ∧
      ∀ p ∈ ks, p.1 ∈ t'.colNames ∧
        t'.getCol p.1 = List.replicate N p.2 := by
  obtain ⟨hn, hsz', hsub, hall⟩ := foldl_setCol_spec ks t hsz hnd
  refine ⟨ks.foldl (fun acc p => acc.setCol p.1 p.2) t, ?_, hn.trans hN, ?_, ?_⟩
  · have hsh : (ks.foldl (fun acc p => acc.setCol p.1 p.2) t).shape00 = false := by
      unfold Table.shape00
      have : (ks.foldl (fun acc p => acc.setCol p.1 p.2) t).rows.length = N :=
        hn.trans hN
      rcases hr : (ks.foldl (fun acc p => acc.setCol p.1 p.2) t).rows with _ | _
      · rw [hr] at this; simp at this; omega
      · simp [hr]
    simp only [DataDict.combine_pars, hp, combineParsFrame, hs, hk,
      Option.isSome_some, and_true, true_and, if_true, hsh]
    rfl
  · have hkeys : ks.map Prod.fst ⊆
        (ks.foldl (fun acc p => acc.setCol p.1 p.2) t).colNames := by
      intro x hx
      obtain ⟨p, hpm, rfl⟩ := List.mem_map.1 hx
      exact (hall p hpm).1
    have := (hnd.subperm hkeys).length_le
    simpa using this
  · intro p hp2
    obtain ⟨hm, hg⟩ := hall p hp2
    exact ⟨hm, by rw [hg, hN]⟩

/-- C3 witness: the spec scenario record, `N = 4`, one constant `y = 1`. -/
theorem c3_combine_parameters_witness :
    ∃ t', egRecord.combine_pars true true = .ok (some t') ∧
      t'.nRows = 4 ∧ 1 ≤ t'.colNames.length ∧
      ∀ p ∈ [("y", Scalar.int 1)], p.1 ∈ t'.colNames ∧
        t'.getCol p.1 = List.replicate 4 p.2 :=
  c3_combine_parameters egRecord
    [("constants", .pydict [("y", .int 1)]), ("sample", .table egSample)]
    egSample [("y", .int 1)] 4 rfl rfl rfl (by decide) rfl (by decide) (by decide)

/-! ### C9 — in-place mutation of the stored model-type table -/

/-- In-place update of an existing key: the lookup finds the new value. -/
theorem lookup_map_update {α : Type} (k : String) (v : α) :
    ∀ xs : List (String × α), (xs.lookup k).isSome →
    (xs.map fun p => if p.1 = k then (k, v) else p).lookup k = some v := by
  intro xs
  induction xs with
  | nil => intro h; simp at h
  | cons p ps ih =>
    intro h
    rcases p with ⟨pk, pv⟩
    by_cases hpk : pk = k
    · subst hpk
      simp [List.lookup_cons]
    · have hk : (k == pk) = false := by
        simp only [beq_eq_false_iff_ne, ne_eq]
        exact fun hh => hpk hh.symm
      simp only [List.map_cons, if_neg hpk, List.lookup_cons, hk]
      refine ih ?_
      simpa only [List.lookup_cons, hk] using h

/-- Appending a fresh key: the lookup finds the appended value. -/
theorem lookup_append_single {α : Type} (k : String) (v : α) :
    ∀ xs : List (String × α), xs.lookup k = none →
    (xs ++ [(k, v)]).lookup k = some v := by
  intro xs
  induction xs with
  | nil => intro _; simp
  | cons p ps ih =>
    intro h
    rcases p with ⟨pk, pv⟩
    rcases hbk : k == pk with _ | _
    · simp only [List.cons_append, List.lookup_cons, hbk]
      refine ih ?_
      simpa only [List.lookup_cons, hbk] using h
    · simp only [List.lookup_cons, hbk] at h
      exact absurd h (by simp)

/-- Assignment followed by lookup finds the assigned value. -/
theorem lookup_upsert_self {α : Type} (xs : List (String × α)) (k : String)
    (v : α) : (upsert xs k v).lookup k = some v := by
  unfold upsert
  split
  · rename_i hsome
    exact lookup_map_update k v xs hsome
  · rename_i hnone
    refine lookup_append_single k v xs ?_
    rcases hx : xs.lookup k with _ | w
    · rfl
    · rw [hx] at hnone
      exact absurd rfl hnone

/-- A successful lookup puts the key among the mapped keys. -/
theorem mem_keys_of_lookup {α : Type} (xs : List (String × α)) (k : String)
    (v : α) (h : xs.lookup k = some v) : k ∈ xs.map Prod.fst := by
  induction xs with
  | nil => simp at h
  | cons p ps ih =>
    rcases p with ⟨pk, pv⟩
    simp only [List.lookup_cons] at h
    rcases hbk : k == pk with _ | _
    · rw [hbk] at h
      exact List.mem_cons_of_mem _ (ih h)
    · exact (beq_iff_eq.1 hbk) ▸ List.mem_cons_self _ _

/-- Fully named index levels resolve successfully. -/
theorem resolveAllNames_ok (l : List (Option String))
    (h : ∀ o ∈ l, o.isSome) : ∃ ns, resolveAllNames l = .ok ns := by
  induction l with
  | nil => exact ⟨[], rfl⟩
  | cons o os ih =>
    obtain ⟨ns, hns⟩ := ih fun x hx => h x (List.mem_cons_of_mem _ hx)
    rcases o with _ | s
    · exact absurd (h none (List.mem_cons_self _ _)) (by simp)
    · refine ⟨s :: ns, ?_⟩
      unfold resolveAllNames
      rw [hns]
      rfl

/-- Assignment `df[c] = v` keeps the index levels. -/
theorem Table.setCol_idxNames (t : Table) (c : String) (v : Scalar) :
    (t.setCol c v).idxNames = t.idxNames := by
  unfold Table.setCol
  split <;> rfl

/-- Updating a key keeps an all-tables child list all tables. -/
theorem upsert_all_tables (cs : List (String × Child)) (k : String)
    (tt : Table) (h : ∀ p ∈ cs, ∃ t0, p.2 = Child.table t0) :
    ∀ p ∈ upsert cs k (.table tt), ∃ t0, p.2 = Child.table t0 := by
  unfold upsert
  split
  · intro p hp
    obtain ⟨q, hq, hqe⟩ := List.mem_map.1 hp
    by_cases hqk : q.1 = k
    · rw [if_pos hqk] at hqe
      exact ⟨tt, by rw [← hqe]⟩
    · rw [if_neg hqk] at hqe
      exact hqe ▸ h q hq
  · intro p hp
    rcases List.mem_append.1 hp with h1 | h1
    · exact h p h1
    · obtain rfl := List.mem_singleton.1 h1
      exact ⟨tt, rfl⟩

/-- An all-tables child list maps successfully into the concat input. -/
theorem mapM_tables_ok (cs : List (String × Child))
    (h : ∀ p ∈ cs, ∃ t0, p.2 = Child.table t0) :
    ∃ ts, cs.mapM (fun p =>
      match p.2 with
      | .table t => some (p.1, t)
      | _ => (none : Option (String × Table))) = some ts := by
  induction cs with
  | nil => exact ⟨[], rfl⟩
  | cons p ps ih =>
    obtain ⟨ts, hts⟩ := ih fun q hq => h q (List.mem_cons_of_mem _ hq)
    obtain ⟨t0, ht0⟩ := h p (List.mem_cons_self _ _)
    refine ⟨(p.1, t0) :: ts, ?_⟩
    rw [List.mapM_cons, ht0, hts]
    rfl

/-- An update of an existing key in a nonempty list stays nonempty. -/
theorem upsert_ne_nil {α : Type} (a : String × α) (l : List (String × α))
    (k : String) (v : α) : upsert (a :: l) k v ≠ [] := by
  unfold upsert
  split <;> simp

/-- Updating a key of a nonempty list stays nonempty. -/
theorem upsert_cons_isEmpty {α : Type} (a : String × α)
    (l : List (String × α)) (k : String) (v : α) :
    (upsert (a :: l) k v).isEmpty = false := by
  unfold upsert
  split <;> simp

/-- With the new column fresh, `df[c] = v` appends it. -/
theorem Table.setCol_colNames_append (t : Table) (c : String) (v : Scalar)
    (h : c ∉ t.colNames) :
    (t.setCol c v).colNames = t.colNames ++ [c] := by
  unfold Table.setCol
  rw [if_neg h]

/-- A `variables` entry with at least two children takes the general path of
`_combine_vars`. -/
theorem combine_vars_multi (d : DataDict) (a b : String × Child)
    (rest : List (String × Child)) (ot vk : Sel)
    (hv : d.lookup "variables" = some (.sub (a :: b :: rest))) :
    d.combine_vars ot vk = generalCombineVars d (a :: b :: rest) ot vk := by
  unfold DataDict.combine_vars
  rw [hv]

/-- C9: on a record whose `variables` section has more than one child and a
child keyed by `log.model_type`, `_combine_vars` (with default selections)
MUTATES the stored child in place: the `df['obj_id'] = 0` assignment hits
the table object shared with the record, so the returned record state holds
the model-type child with a new `obj_id` column equal to `0` in every row —
the `variables` section is not left unchanged by this read-style call. -/
theorem c9_combine_vars_mutates_model_child (d : DataDict)
    (cs : List (String × Child)) (lg : List (String × Scalar))
    (mt : String) (t : Table)
    (hv : d.lookup "variables" = some (.sub cs))
    (hlen : 1 < cs.length)
    (hlog : d.lookup "log" = some (.pydict lg))
    (hmt : lg.lookup "model_type" = some (.str mt))
    (hc : cs.lookup mt = some (.table t))
    (hobj : "obj_id" ∉ t.colNames)
    (hsz : t.sized)
    (hnames : ∀ o ∈ t.idxNames, o.isSome)
    (htables : ∀ p ∈ cs, ∃ tt, p.2 = .table tt) :
    ∃ r,
      d.combine_vars .all .all = .ok (some r,
        d.setKey "variables"
          (.sub (upsert cs mt (.table (t.setCol "obj_id" (Scalar.int 0)))))) ∧
      (t.setCol "obj_id" (Scalar.int 0)).colNames = t.colNames ++ ["obj_id"] ∧
      (t.setCol "obj_id" (Scalar.int 0)).getCol "obj_id" =
        List.replicate t.nRows (Scalar.int 0) ∧
      d.setKey "variables"
        (.sub (upsert cs mt (.table (t.setCol "obj_id" (Scalar.int 0))))) ≠ d := by
  have hmem : mt ∈ cs.map Prod.fst := mem_keys_of_lookup cs mt _ hc
  obtain ⟨ns, hns⟩ := resolveAllNames_ok t.idxNames hnames
  rcases cs with _ | ⟨c1, cs'⟩
  · simp at hlen
  rcases cs' with _ | ⟨c2, cs''⟩
  · simp at hlen
  obtain ⟨ts, hts⟩ := mapM_tables_ok
    (upsert (c1 :: c2 :: cs'') mt (.table
      ((t.setCol "obj_id" (Scalar.int 0)).reset_index.set_index
        (ns.take (ns.length - 1) ++ ["obj_id"] ++ ns.drop (ns.length - 1)))))
    (upsert_all_tables _ mt _ htables)
  refine ⟨.table (concatDict ts), ?_, ?_, ?_, ?_⟩
  · rw [combine_vars_multi d c1 c2 cs'' .all .all hv]
    unfold generalCombineVars
    simp only [DataDict.getModelType, hlog, hmt, if_pos hmem, hc,
      Table.setCol_idxNames, hns, upsert_cons_isEmpty, hts]
    rfl
  · exact t.setCol_colNames_append "obj_id" (Scalar.int 0) hobj
  · exact t.getCol_setCol_self "obj_id" (Scalar.int 0) hsz
  · intro he
    have h1 := congrArg (fun x => x.lookup "variables") he
    simp only [DataDict.setKey, DataDict.lookup] at h1
    rw [lookup_upsert_self] at h1
    rw [← DataDict.lookup, hv] at h1
    have h2 := congrArg (fun x =>
      match x with
      | some (Value.sub l) => List.lookup mt l
      | _ => none) h1
    simp only at h2
    rw [lookup_upsert_self, hc] at h2
    have h3 : t.setCol "obj_id" (Scalar.int 0) = t :=
      Child.table.inj (Option.some.inj h2)
    have h4 : (t.setCol "obj_id" (Scalar.int 0)).colNames.length =
        t.colNames.length := congrArg (fun x => x.colNames.length) h3
    rw [t.setCol_colNames_append "obj_id" (Scalar.int 0) hobj] at h4
    simp at h4

/-- A model-level variables table (indexed by `t`). -/
def egModelVars : Table :=
  { idxNames := [some "t"], colNames := ["v"],
    rows := [([.int 0], [.int 1]), ([.int 1], [.int 2])] }

/-- An agent-level variables table (indexed by `obj_id`, `t`). -/
def egAgentVars : Table :=
  { idxNames := [some "obj_id", some "t"], colNames := ["w"],
    rows := [([.int 0, .int 0], [.int 3]), ([.int 0, .int 1], [.int 4])] }

/-- A record with a two-child `variables` section whose first child is keyed
by the model type `M`. -/
def egVarsRec : DataDict :=
  ⟨[("log", .pydict [("model_type", .str "M")]),
    ("variables", .sub [("M", .table egModelVars),
                        ("Agent", .table egAgentVars)])]⟩

/-- C9 witness: the mutation theorem applied at the concrete two-child
record. -/
theorem c9_combine_vars_mutates_model_child_witness :
    ∃ r,
      egVarsRec.combine_vars .all .all = .ok (some r,
        egVarsRec.setKey "variables"
          (.sub (upsert [("M", .table egModelVars),
                         ("Agent", .table egAgentVars)] "M"
            (.table (egModelVars.setCol "obj_id" (Scalar.int 0)))))) ∧
      (egModelVars.setCol "obj_id" (Scalar.int 0)).colNames =
        egModelVars.colNames ++ ["obj_id"] ∧
      (egModelVars.setCol "obj_id" (Scalar.int 0)).getCol "obj_id" =
        List.replicate egModelVars.nRows (Scalar.int 0) ∧
      egVarsRec.setKey "variables"
        (.sub (upsert [("M", .table egModelVars),
                       ("Agent", .table egAgentVars)] "M"
          (.table (egModelVars.setCol "obj_id" (Scalar.int 0))))) ≠ egVarsRec :=
  c9_combine_vars_mutates_model_child egVarsRec
    [("M", .table egModelVars), ("Agent", .table egAgentVars)]
    [("model_type", .str "M")] "M" egModelVars
    rfl (by decide) rfl rfl rfl (by decide) (by decide) (by decide)
    (by
      intro p hp
      rcases List.mem_cons.1 hp with rfl | hp2
      · exact ⟨egModelVars, rfl⟩
      · rcases List.mem_cons.1 hp2 with rfl | hp3
        · exact ⟨egAgentVars, rfl⟩
        · exact absurd hp3 (List.not_mem_nil _))

/-! ### C2 — save/load round trip -/

/-- Conversion `toList` distributes over string append. -/
theorem string_toList_append (a b : String) :
    (a ++ b).toList = a.toList ++ b.toList := String.data_append a b

/-- A list starts with itself. -/
theorem isPrefixOf_append_self (pat : List Char) :
    ∀ r, pat.isPrefixOf (pat ++ r) = true := by
  induction pat with
  | nil => intro r; simp [List.isPrefixOf]
  | cons c cs ih => intro r; simp [List.isPrefixOf, ih r]

/-- A string that starts with `pat` contains `pat`. -/
theorem listContains_append_self (pat : List Char) (r : List Char) :
    listContains pat (pat ++ r) = true := by
  rcases h : pat ++ r with _ | ⟨c, rest⟩
  · have : pat = [] := (List.append_eq_nil.1 h).1
    subst this
    rfl
  · unfold listContains
    rw [← h, isPrefixOf_append_self]
    simp

/-- Splitting a containment over a cons. -/
theorem listContains_cons (pat : List Char) (c : Char) (s : List Char) :
    listContains pat (c :: s) = (pat.isPrefixOf (c :: s) || listContains pat s) :=
  rfl

/-- A pattern starting with a character that never occurs in `s` cannot
start inside `s`; containment in `s ++ r` reduces to containment in `r`. -/
theorem listContains_append_of_head_notin (p : Char) (pt : List Char) :
    ∀ (s r : List Char), (∀ c ∈ s, c ≠ p) →
    listContains (p :: pt) r = false →
    listContains (p :: pt) (s ++ r) = false := by
  intro s
  induction s with
  | nil => intro r _ hr; exact hr
  | cons c cs ih =>
    intro r hs hr
    rw [List.cons_append, listContains_cons]
    have hcp : (p == c) = false := by
      simp only [beq_eq_false_iff_ne, ne_eq]
      exact fun h => (hs c (List.mem_cons_self _ _)) h.symm
    have h1 : (p :: pt).isPrefixOf (c :: (cs ++ r)) = false := by
      simp [List.isPrefixOf, hcp]
    rw [h1, ih r (fun x hx => hs x (List.mem_cons_of_mem _ hx)) hr]
    rfl

/-- Skipping exactly the leading block leaves the worker at the tail. -/
theorem replaceGo_skip (pat repl : List Char) :
    ∀ (xs s : List Char), replaceGo pat repl xs.length (xs ++ s) =
      replaceGo pat repl 0 s := by
  intro xs
  induction xs with
  | nil => intro s; rfl
  | cons c cs ih => intro s; exact ih s

/-- Replacement is the identity when the pattern does not occur. -/
theorem replaceGo_no_match (pat repl : List Char) :
    ∀ s, listContains pat s = false → replaceGo pat repl 0 s = s := by
  intro s
  induction s with
  | nil => intro _; rfl
  | cons c cs ih =>
    intro h
    rw [listContains_cons, Bool.or_eq_false_iff] at h
    unfold replaceGo
    rw [if_neg (fun hand => by rw [hand.1] at h; exact absurd h.1 (by simp))]
    rw [ih h.2]

/-- Replacing `pat` by nothing in `pat ++ ck` yields `ck` when `ck` itself
does not contain `pat`. -/
theorem listReplace_strip_lead (pat ck : List Char) (hne : pat ≠ [])
    (hck : listContains pat ck = false) :
    listReplace pat [] (pat ++ ck) = ck := by
  rcases pat with _ | ⟨p0, pt⟩
  · exact absurd rfl hne
  · unfold listReplace
    rw [List.cons_append]
    unfold replaceGo
    have hpre : (p0 :: pt).isPrefixOf (p0 :: (pt ++ ck)) = true := by
      rw [← List.cons_append]
      exact isPrefixOf_append_self _ _
    rw [if_pos ⟨hpre, by simp⟩]
    simp only [List.nil_append, List.length_cons, Nat.add_sub_cancel]
    rw [replaceGo_skip (p0 :: pt) [] pt ck]
    exact replaceGo_no_match _ _ ck hck

/-- A filename stem starting with the routing prefix is routed. -/
theorem strContains_append_self (pre ck : String) :
    strContains (pre ++ ck) pre = true := by
  unfold strContains
  rw [string_toList_append]
  exact listContains_append_self _ _

/-- Stripping the routing prefix recovers the child key. -/
theorem strReplace_strip_lead (pre ck : String) (hne : pre.toList ≠ [])
    (hck : strContains ck pre = false) :
    strReplace (pre ++ ck) pre "" = ck := by
  unfold strReplace
  rw [string_toList_append]
  unfold strContains at hck
  rw [show ("" : String).toList = [] from rfl,
    listReplace_strip_lead pre.toList ck.toList hne hck]
  rfl

/-- A `parameters_`-prefixed stem never contains `variables_` when the child
key does not: the pattern's head `v` does not occur in `parameters_`, so no
occurrence can start inside or straddle the prefix. -/
theorem parameters_stem_no_variables (ck : String)
    (h : strContains ck "variables_" = false) :
    strContains ("parameters_" ++ ck) "variables_" = false := by
  unfold strContains at *
  rw [string_toList_append]
  exact listContains_append_of_head_notin 'v' "ariables_".toList
    "parameters_".toList ck.toList (by decide) h

/-! #### Well-formed records (the data-model shapes that persist faithfully) -/

/-- A key safe for the `_load` routing: it does not contain either routing
marker as a substring. -/
def goodName (s : String) : Prop :=
  strContains s "variables_" = false ∧ strContains s "parameters_" = false

instance (s : String) : Decidable (goodName s) := by
  unfold goodName; infer_instance

/-- Data-model shape of a table as persisted: at least one index level, all
levels named with vocabulary identifiers (in vocabulary order, without
repetition), columns disjoint from the vocabulary and nonempty as names,
column names distinct, rows well-sized. -/
def WFTable (t : Table) : Prop :=
  (∀ o ∈ t.idxNames, o.isSome) ∧
  t.idxNames ≠ [] ∧
  iCols.filter (fun i => i ∈ t.idxNames.reduceOption) = t.idxNames.reduceOption ∧
  (∀ c ∈ t.colNames, c ∉ iCols ∧ c ≠ "") ∧
  t.colNames.Nodup ∧
  t.sized

instance (t : Table) : Decidable (WFTable t) := by
  unfold WFTable; infer_instance

/-- A flat scalar dict that persists through JSON and compares reflexively:
distinct keys, no NaN values. -/
def WFdict (p : List (String × Scalar)) : Prop :=
  (p.map Prod.fst).Nodup ∧ ∀ q ∈ p, q.2 ≠ Scalar.nan

instance (p : List (String × Scalar)) : Decidable (WFdict p) := by
  unfold WFdict; infer_instance

/-- A persistable child of a nested record: a well-formed table or dict
(a scalar child would be silently dropped by `save`). -/
def WFChild : Child → Prop
  | .table t => WFTable t
  | .pydict p => WFdict p
  | .scalar _ => False

instance : (c : Child) → Decidable (WFChild c)
  | .table t => inferInstanceAs (Decidable (WFTable t))
  | .pydict p => inferInstanceAs (Decidable (WFdict p))
  | .scalar _ => inferInstanceAs (Decidable False)

/-- A persistable top-level value under its key `k`: tables and dicts
well-formed, scalars non-NaN, nested records only in the `variables` /
`parameters` sections, nonempty (an empty nested record writes no file and
vanishes on reload), with routing-safe, distinct child keys. -/
def WFValue (k : String) : Value → Prop
  | .table t => WFTable t
  | .pydict p => WFdict p
  | .scalar s => s ≠ Scalar.nan
  | .sub cs => (k = "variables" ∨ k = "parameters") ∧ cs ≠ [] ∧
      (cs.map Prod.fst).Nodup ∧
      ∀ q ∈ cs, goodName q.1 ∧ WFChild q.2

instance (k : String) : (v : Value) → Decidable (WFValue k v)
  | .table t => inferInstanceAs (Decidable (WFTable t))
  | .pydict p => inferInstanceAs (Decidable (WFdict p))
  | .scalar s => inferInstanceAs (Decidable (s ≠ Scalar.nan))
  | .sub cs => inferInstanceAs (Decidable ((k = "variables" ∨ k = "parameters") ∧
      cs ≠ [] ∧
      (cs.map Prod.fst).Nodup ∧ ∀ q ∈ cs, goodName q.1 ∧ WFChild q.2))

/-- A record conforming to the data model as it persists: distinct,
routing-safe top-level keys and well-formed values. -/
def WFRecord (d : DataDict) : Prop :=
  (d.entries.map Prod.fst).Nodup ∧
  ∀ p ∈ d.entries, goodName p.1 ∧ WFValue p.1 p.2

instance (d : DataDict) : Decidable (WFRecord d) := by
  unfold WFRecord; infer_instance

/-! #### Table round trip through CSV -/

/-- With every level named, writing the index names is `reduceOption`. -/
theorem mapGetD_of_all_some (l : List (Option String))
    (h : ∀ o ∈ l, o.isSome) :
    l.map (fun o => o.getD "") = l.reduceOption := by
  induction l with
  | nil => rfl
  | cons o os ih =>
    rcases o with _ | s
    · exact absurd (h none (List.mem_cons_self _ _)) (by simp)
    · simp only [List.map_cons, List.reduceOption_cons_of_some, Option.getD_some]
      rw [ih fun x hx => h x (List.mem_cons_of_mem _ hx)]

/-- With every level named, `reduceOption` loses nothing. -/
theorem map_some_reduceOption (l : List (Option String))
    (h : ∀ o ∈ l, o.isSome) : l.reduceOption.map some = l := by
  induction l with
  | nil => rfl
  | cons o os ih =>
    rcases o with _ | s
    · exact absurd (h none (List.mem_cons_self _ _)) (by simp)
    · simp only [List.reduceOption_cons_of_some, List.map_cons]
      rw [ih fun x hx => h x (List.mem_cons_of_mem _ hx)]

/-- Renaming empty header cells is the identity on nonempty names. -/
theorem enumFrom_rename_id :
    ∀ (n : Nat) (l : List String), (∀ x ∈ l, x ≠ "") →
    ((List.enumFrom n l).map fun p =>
      if p.2 = "" then "Unnamed: " ++ toString p.1 else p.2) = l := by
  intro n l
  induction l generalizing n with
  | nil => intro _; rfl
  | cons x xs ih =>
    intro h
    simp only [List.enumFrom, List.map_cons]
    rw [if_neg (h x (List.mem_cons_self _ _)), ih (n + 1)
      fun y hy => h y (List.mem_cons_of_mem _ hy)]

/-- Mapping a function of the element over an enumeration drops the
counter. -/
theorem enumFrom_discard {β : Type} :
    ∀ (n : Nat) (l : List (List Scalar)) (g : List Scalar → β),
    ((List.enumFrom n l).map fun p => g p.2) = l.map g := by
  intro n l
  induction l generalizing n with
  | nil => intro _; rfl
  | cons x xs ih =>
    intro g
    simp only [List.enumFrom, List.map_cons]
    rw [ih (n + 1) g]

/-- Looking each key of a distinct key list up in its own zip (with any
tail) reads back the zipped values. -/
theorem map_lookup_zip (names : List String) :
    ∀ (vals : List Scalar) (rest : List (String × Scalar)),
    names.Nodup → vals.length = names.length →
    names.map (fun c => ((names.zip vals ++ rest).lookup c).getD (Scalar.int 0))
      = vals := by
  induction names with
  | nil =>
    intro vals _ _ hlen
    rcases vals with _ | _
    · rfl
    · simp at hlen
  | cons n ns ih =>
    intro vals rest hnd hlen
    rcases vals with _ | ⟨v, vs⟩
    · simp at hlen
    · simp only [List.nodup_cons] at hnd
      simp only [List.zip_cons_cons, List.cons_append, List.map_cons,
        List.lookup_cons, beq_self_eq_true, Option.getD_some]
      refine congrArg (v :: ·) ?_
      have hstep : ∀ c ∈ ns,
          ((((n, v) :: (ns.zip vs ++ rest))).lookup c).getD (Scalar.int 0) =
          ((ns.zip vs ++ rest).lookup c).getD (Scalar.int 0) := by
        intro c hc
        have hcn : (c == n) = false := by
          simp only [beq_eq_false_iff_ne, ne_eq]
          exact fun hh => hnd.1 (hh ▸ hc)
        simp [List.lookup_cons, hcn]
      calc ns.map (fun c =>
            (((n, v) :: (ns.zip vs ++ rest)).lookup c).getD (Scalar.int 0))
          = ns.map (fun c =>
            ((ns.zip vs ++ rest).lookup c).getD (Scalar.int 0)) :=
            List.map_congr_left hstep
        _ = vs := ih vs rest hnd.2 (Nat.succ_injective hlen)

/-- Round trip of a well-formed table through `to_csv` and `read_csv` with
index reconstruction: the original table is recovered exactly. -/
theorem readCsv_to_csv (t : Table) (h : WFTable t) :
    readCsv (t.idxNames.map (fun o => o.getD "") ++ t.colNames)
      (t.rows.map fun r => r.1 ++ r.2) = t := by
  obtain ⟨tidx, tcols, trows⟩ := t
  obtain ⟨hsome, hne, hfilter, hcols, hnodup, hsz⟩ := h
  simp only at hsome hne hfilter hcols hnodup ⊢
  have hmap : tidx.map (fun o => o.getD "") = tidx.reduceOption :=
    mapGetD_of_all_some _ hsome
  have hidx : tidx.reduceOption.map some = tidx := map_some_reduceOption _ hsome
  have hisub : ∀ x ∈ tidx.reduceOption, x ∈ iCols := by
    intro x hx
    rw [← hfilter] at hx
    exact (List.mem_filter.1 hx).1
  have hinodup : tidx.reduceOption.Nodup :=
    hfilter ▸ List.Nodup.filter _ (by decide)
  have hi_ne : ∀ x ∈ tidx.reduceOption, x ≠ "" := by
    intro x hx
    have hm := hisub x hx
    simp only [iCols, List.mem_cons, List.not_mem_nil, or_false] at hm
    rcases hm with rfl | rfl | rfl | rfl <;> decide
  have hnames_ne : ∀ x ∈ tidx.reduceOption ++ tcols, x ≠ "" := by
    intro x hx
    rcases List.mem_append.1 hx with h1 | h1
    · exact hi_ne x h1
    · exact (hcols x h1).2
  have hinlen : tidx.reduceOption.length = tidx.length := by
    conv_rhs => rw [← hidx]
    simp
  have hnames : readCsvNames (tidx.reduceOption ++ tcols) =
      tidx.reduceOption ++ tcols := enumFrom_rename_id 0 _ hnames_ne
  have hcols_notin : ∀ c ∈ tcols, c ∉ tidx.reduceOption :=
    fun c hc hmem => (hcols c hc).1 (hisub c hmem)
  have hindex : (iCols.filter fun i => i ∈ tidx.reduceOption ++ tcols) =
      tidx.reduceOption := by
    have hcongr : (iCols.filter fun i => i ∈ tidx.reduceOption ++ tcols) =
        iCols.filter fun i => i ∈ tidx.reduceOption := by
      refine List.filter_congr ?_
      intro x hx
      simp only [decide_eq_decide, List.mem_append]
      constructor
      · rintro (h1 | h1)
        · exact h1
        · exact absurd hx ((hcols x h1).1)
      · exact fun h1 => Or.inl h1
    rw [hcongr, hfilter]
  have hin_ne_nil : tidx.reduceOption ≠ [] := by
    intro hnil
    rw [hnil] at hidx
    exact hne hidx.symm
  have hempty : (iCols.filter fun i => i ∈ readCsvNames
      (tidx.reduceOption ++ tcols)).isEmpty = false := by
    rw [hnames, hindex]
    rcases hri : tidx.reduceOption with _ | _
    · exact absurd hri hin_ne_nil
    · rfl
  unfold readCsv
  rw [hmap, hempty]
  simp only [Bool.false_eq_true, if_false]
  unfold readCsvFrame Table.set_index
  rw [hnames, hindex]
  simp only [Table.mk.injEq]
  refine ⟨hidx, ?_, ?_⟩
  · rw [List.filter_append]
    have h1 : tidx.reduceOption.filter (fun c => c ∉ tidx.reduceOption) = [] :=
      List.filter_eq_nil_iff.2 (fun a ha => by simp [ha])
    have h2 : tcols.filter (fun c => c ∉ tidx.reduceOption) = tcols :=
      List.filter_eq_self.2 (fun a ha => by
        simp only [decide_eq_true_eq]
        exact hcols_notin a ha)
    rw [h1, h2, List.nil_append]
  · rw [List.map_map]
    have hdiscard := enumFrom_discard 0 (trows.map fun r => r.1 ++ r.2)
      (fun row => (tidx.reduceOption.map
          (cellOf (tidx.reduceOption ++ tcols) row),
        (((tidx.reduceOption ++ tcols).zip row).filter
          (fun p => p.1 ∉ tidx.reduceOption)).map Prod.snd))
    rw [show List.enum (trows.map fun r => r.1 ++ r.2) =
      List.enumFrom 0 (trows.map fun r => r.1 ++ r.2) from rfl] at *
    refine Eq.trans (Eq.trans ?_ hdiscard) ?_
    · rfl
    · rw [List.map_map]
      have hpoint : ∀ r ∈ trows,
          ((fun row => (tidx.reduceOption.map
              (cellOf (tidx.reduceOption ++ tcols) row),
            (((tidx.reduceOption ++ tcols).zip row).filter
              (fun p => p.1 ∉ tidx.reduceOption)).map Prod.snd)) ∘
            fun r => r.1 ++ r.2) r = r := by
        intro r hr
        obtain ⟨hr1, hr2⟩ := hsz r hr
        have hlen1 : tidx.reduceOption.length = r.1.length := by
          rw [hinlen, hr1]
        have hzip : (tidx.reduceOption ++ tcols).zip (r.1 ++ r.2) =
            tidx.reduceOption.zip r.1 ++ tcols.zip r.2 :=
          List.zip_append hlen1
        simp only [Function.comp_apply, hzip]
        refine Prod.ext ?_ ?_
        · show tidx.reduceOption.map
            (cellOf (tidx.reduceOption ++ tcols) (r.1 ++ r.2)) = r.1
          unfold cellOf
          rw [show ((tidx.reduceOption ++ tcols).zip (r.1 ++ r.2)) =
            tidx.reduceOption.zip r.1 ++ tcols.zip r.2 from hzip]
          exact map_lookup_zip tidx.reduceOption r.1 (tcols.zip r.2)
            hinodup hlen1.symm
        · show ((tidx.reduceOption.zip r.1 ++ tcols.zip r.2).filter
            (fun p => p.1 ∉ tidx.reduceOption)).map Prod.snd = r.2
          rw [List.filter_append]
          have hf1 : (tidx.reduceOption.zip r.1).filter
              (fun p => p.1 ∉ tidx.reduceOption) = [] := by
            refine List.filter_eq_nil_iff.2 ?_
            rintro ⟨a, b⟩ hab
            have := (List.of_mem_zip hab).1
            simp [this]
          have hf2 : (tcols.zip r.2).filter
              (fun p => p.1 ∉ tidx.reduceOption) = tcols.zip r.2 := by
            refine List.filter_eq_self.2 ?_
            rintro ⟨a, b⟩ hab
            have := (List.of_mem_zip hab).1
            simp only [decide_eq_true_eq]
            exact hcols_notin a this
          rw [hf1, hf2, List.nil_append]
          exact List.map_snd_zip tcols r.2 (le_of_eq hr2)
      calc trows.map _ = trows.map id := List.map_congr_left hpoint
        _ = trows := List.map_id trows

/-! #### Association-list bookkeeping for the load loop -/

/-- A failed lookup means no entry carries the key. -/
theorem lookup_none_forall {α : Type} (xs : List (String × α)) (k : String)
    (h : xs.lookup k = none) : ∀ p ∈ xs, p.1 ≠ k := by
  induction xs with
  | nil => intro p hp; exact absurd hp (List.not_mem_nil p)
  | cons q qs ih =>
    intro p hp
    rcases q with ⟨qk, qv⟩
    simp only [List.lookup_cons] at h
    rcases hbk : k == qk with _ | _
    · rw [hbk] at h
      rcases List.mem_cons.1 hp with rfl | hp2
      · intro hh
        simp only at hh
        rw [hh] at hbk
        simp at hbk
      · exact ih h p hp2
    · rw [hbk] at h
      exact absurd h (by simp)

/-- Assigning a fresh key appends the binding. -/
theorem upsert_fresh_append {α : Type} (xs : List (String × α)) (k : String)
    (v : α) (h : xs.lookup k = none) : upsert xs k v = xs ++ [(k, v)] := by
  unfold upsert
  rw [h]
  rfl

/-- Assigning a key that sits (only) at the end replaces it in place. -/
theorem upsert_present_at_end {α : Type} (xs : List (String × α))
    (k : String) (old v : α) (h : xs.lookup k = none) :
    upsert (xs ++ [(k, old)]) k v = xs ++ [(k, v)] := by
  unfold upsert
  rw [lookup_append_single k old xs h]
  simp only [Option.isSome_some, if_true, List.map_append]
  rw [List.map_congr_left (fun p hp => if_neg (by
    intro hh
    exact lookup_none_forall xs k h p hp hh))]
  simp

/-- A lookup that fails on `xs` and targets a different key fails on
`xs ++ [(k1, w)]` too. -/
theorem lookup_append_none {α : Type} (xs : List (String × α))
    (k k1 : String) (w : α) (h : xs.lookup k = none) (hne : k ≠ k1) :
    (xs ++ [(k1, w)]).lookup k = none := by
  induction xs with
  | nil =>
    simp only [List.nil_append, List.lookup_cons]
    rcases hbk : k == k1 with _ | _
    · rfl
    · exact absurd (beq_iff_eq.1 hbk) hne
  | cons q qs ih =>
    rcases q with ⟨qk, qv⟩
    simp only [List.lookup_cons] at h ⊢
    rcases hbk : k == qk with _ | _
    · rw [hbk] at h
      simp only [List.cons_append, List.lookup_cons, hbk]
      exact ih h
    · rw [hbk] at h
      exact absurd h (by simp)

/-- A routing-safe stem is loaded as a top-level entry. -/
theorem loadOne_plain (d : DataDict) (k : String) (f : File)
    (hgood : goodName k) : loadOne d k f = d.setKey k f.loadValue := by
  unfold loadOne
  simp only [hgood.1, hgood.2, Bool.false_eq_true, if_false]

/-- A `variables_`-prefixed stem is nested under `variables` with the prefix
stripped. -/
theorem loadOne_variables (d : DataDict) (ck : String) (f : File)
    (hck : goodName ck) :
    loadOne d ("variables" ++ "_" ++ ck) f =
      d.setNested "variables" ck f.loadValue.asChild := by
  unfold loadOne
  rw [show ("variables" ++ "_" ++ ck : String) = "variables_" ++ ck from rfl,
    strContains_append_self]
  rw [if_pos rfl,
    strReplace_strip_lead "variables_" ck (by decide) hck.1]

/-- A `parameters_`-prefixed stem is nested under `parameters` with the
prefix stripped (the `variables_` check comes first and fails). -/
theorem loadOne_parameters (d : DataDict) (ck : String) (f : File)
    (hck : goodName ck) :
    loadOne d ("parameters" ++ "_" ++ ck) f =
      d.setNested "parameters" ck f.loadValue.asChild := by
  unfold loadOne
  rw [show ("parameters" ++ "_" ++ ck : String) = "parameters_" ++ ck from rfl,
    parameters_stem_no_variables ck hck.1]
  simp only [Bool.false_eq_true, if_false]
  rw [strContains_append_self, if_pos rfl,
    strReplace_strip_lead "parameters_" ck (by decide) hck.2]

/-- Nesting into a missing section creates it with the single child. -/
theorem setNested_create (d : DataDict) (sect ck : String) (c : Child)
    (h : d.lookup sect = none) :
    d.setNested sect ck c = ⟨d.entries ++ [(sect, .sub [(ck, c)])]⟩ := by
  unfold DataDict.setNested
  rw [h]
  unfold DataDict.setKey
  rw [upsert_fresh_append d.entries sect _ h]

/-- The `_load` loop over the files of a nested section's remaining
children, with the section already created as the last entry, appends each
child in order. -/
theorem load_sub_files (secName : String)
    (hsec : secName = "variables" ∨ secName = "parameters") :
    ∀ (cs done : List (String × Child)) (acc0 : List (String × Value)),
    (∀ q ∈ cs, goodName q.1 ∧ WFChild q.2) →
    (∀ q ∈ cs, done.lookup q.1 = none) →
    (cs.map Prod.fst).Nodup →
    acc0.lookup secName = none →
    List.foldl (fun d q => loadOne d q.1 q.2)
      ⟨acc0 ++ [(secName, .sub done)]⟩
      (cs.flatMap fun q =>
        match q.2 with
        | .table t => [(secName ++ "_" ++ q.1, t.to_csv)]
        | .pydict pd => [(secName ++ "_" ++ q.1, File.jsonDict pd)]
        | .scalar _ => [])
    = ⟨acc0 ++ [(secName, .sub (done ++ cs))]⟩ := by
  intro cs
  induction cs with
  | nil => intro done acc0 _ _ _ _; simp
  | cons q qs ih =>
    intro done acc0 hWF hdone hnd hacc
    rcases q with ⟨ck, c⟩
    obtain ⟨hgood, hchild⟩ := hWF (ck, c) (List.mem_cons_self _ _)
    simp only [List.map_cons, List.nodup_cons] at hnd
    have hdone1 : done.lookup ck = none := hdone (ck, c) (List.mem_cons_self _ _)
    have hstep : ∀ f : File, f.loadValue.asChild = c →
        loadOne ⟨acc0 ++ [(secName, .sub done)]⟩ (secName ++ "_" ++ ck) f =
        ⟨acc0 ++ [(secName, .sub (done ++ [(ck, c)]))]⟩ := by
      intro f hf
      have hnested :
          DataDict.setNested ⟨acc0 ++ [(secName, .sub done)]⟩ secName ck
            f.loadValue.asChild =
          ⟨acc0 ++ [(secName, .sub (done ++ [(ck, c)]))]⟩ := by
        unfold DataDict.setNested
        rw [show DataDict.lookup ⟨acc0 ++ [(secName, .sub done)]⟩ secName =
          some (.sub done) from lookup_append_single secName _ acc0 hacc, hf]
        show DataDict.setKey ⟨acc0 ++ [(secName, .sub done)]⟩ secName
          (.sub (upsert done ck c)) =
          ⟨acc0 ++ [(secName, .sub (done ++ [(ck, c)]))]⟩
        unfold DataDict.setKey
        rw [upsert_fresh_append done ck c hdone1,
          upsert_present_at_end acc0 secName _ _ hacc]
      rcases hsec with rfl | rfl
      · rw [loadOne_variables _ ck f hgood]
        exact hnested
      · rw [loadOne_parameters _ ck f hgood]
        exact hnested
    have hrest : ∀ q' ∈ qs, (done ++ [(ck, c)]).lookup q'.1 = none := by
      intro q' hq'
      refine lookup_append_none done q'.1 ck c
        (hdone q' (List.mem_cons_of_mem _ hq')) ?_
      intro hh
      exact hnd.1 (hh ▸ List.mem_map_of_mem Prod.fst hq')
    have hWFrest : ∀ q' ∈ qs, goodName q'.1 ∧ WFChild q'.2 :=
      fun q' hq' => hWF q' (List.mem_cons_of_mem _ hq')
    have happ : (done ++ [(ck, c)]) ++ qs = done ++ (ck, c) :: qs := by
      rw [List.append_assoc]
      rfl
    rcases c with t | pd | s
    · simp only [List.flatMap_cons, List.singleton_append, List.foldl_cons]
      rw [hstep (t.to_csv) (by
        show Child.table (readCsv _ _) = Child.table t
        rw [readCsv_to_csv t hchild])]
      rw [← happ]
      exact ih (done ++ [(ck, Child.table t)]) acc0 hWFrest hrest hnd.2 hacc
    · simp only [List.flatMap_cons, List.singleton_append, List.foldl_cons]
      rw [hstep (File.jsonDict pd) rfl]
      rw [← happ]
      exact ih (done ++ [(ck, Child.pydict pd)]) acc0 hWFrest hrest hnd.2 hacc
    · exact absurd hchild not_false

/-- Loading the files saved for one well-formed entry appends exactly that
entry to the record being built. -/
theorem load_entry_files (k : String) (v : Value)
    (acc : List (String × Value)) (hgood : goodName k)
    (hWF : WFValue k v) (hfresh : acc.lookup k = none) :
    List.foldl (fun d q => loadOne d q.1 q.2) ⟨acc⟩ (v.saveFiles k)
      = ⟨acc ++ [(k, v)]⟩ := by
  rcases v with t | p | s | cs
  · simp only [Value.saveFiles, List.foldl_cons, List.foldl_nil]
    rw [loadOne_plain _ k _ hgood]
    unfold DataDict.setKey
    rw [upsert_fresh_append acc k _ hfresh]
    show DataDict.mk (acc ++ [(k, Value.table (readCsv _ _))]) = _
    rw [readCsv_to_csv t hWF]
  · simp only [Value.saveFiles, List.foldl_cons, List.foldl_nil]
    rw [loadOne_plain _ k _ hgood]
    unfold DataDict.setKey
    rw [upsert_fresh_append acc k _ hfresh]
    rfl
  · simp only [Value.saveFiles, List.foldl_cons, List.foldl_nil]
    rw [loadOne_plain _ k _ hgood]
    unfold DataDict.setKey
    rw [upsert_fresh_append acc k _ hfresh]
    rfl
  · obtain ⟨hsec, hcs_ne, hnd, hchildren⟩ := hWF
    rcases cs with _ | ⟨⟨ck, c⟩, cs'⟩
    · exact absurd rfl hcs_ne
    · obtain ⟨hgoodc, hchild⟩ := hchildren (ck, c) (List.mem_cons_self _ _)
      simp only [List.map_cons, List.nodup_cons] at hnd
      have hcreate : ∀ f : File, f.loadValue.asChild = c →
          loadOne ⟨acc⟩ (k ++ "_" ++ ck) f =
          ⟨acc ++ [(k, .sub [(ck, c)])]⟩ := by
        intro f hf
        have hnested : DataDict.setNested ⟨acc⟩ k ck f.loadValue.asChild =
            ⟨acc ++ [(k, .sub [(ck, c)])]⟩ := by
          rw [hf, setNested_create ⟨acc⟩ k ck c hfresh]
        rcases hsec with rfl | rfl
        · rw [loadOne_variables _ ck f hgoodc]
          exact hnested
        · rw [loadOne_parameters _ ck f hgoodc]
          exact hnested
      have hrest : ∀ q' ∈ cs', ([(ck, c)] : List (String × Child)).lookup q'.1
          = none := by
        intro q' hq'
        have hne : q'.1 ≠ ck := fun hh =>
          hnd.1 (hh ▸ List.mem_map_of_mem Prod.fst hq')
        simp only [List.lookup_cons]
        rcases hbk : q'.1 == ck with _ | _
        · rfl
        · exact absurd (beq_iff_eq.1 hbk) hne
      have hWFrest : ∀ q' ∈ cs', goodName q'.1 ∧ WFChild q'.2 :=
        fun q' hq' => hchildren q' (List.mem_cons_of_mem _ hq')
      have htail := load_sub_files k hsec cs' [(ck, c)] acc hWFrest hrest
        hnd.2 hfresh
      rcases c with t | pd | s
      · simp only [Value.saveFiles, List.flatMap_cons, List.singleton_append,
          List.foldl_cons]
        rw [hcreate (t.to_csv) (by
          show Child.table (readCsv _ _) = Child.table t
          rw [readCsv_to_csv t hchild])]
        exact htail
      · simp only [Value.saveFiles, List.flatMap_cons, List.singleton_append,
          List.foldl_cons]
        rw [hcreate (File.jsonDict pd) rfl]
        exact htail
      · exact absurd hchild not_false

/-- The `_load` loop over all files written by `save` rebuilds the record's
entries in order, after any already-loaded prefix with fresh keys. -/
theorem load_fold_entries :
    ∀ (es acc : List (String × Value)),
    (∀ p ∈ es, goodName p.1 ∧ WFValue p.1 p.2) →
    (∀ p ∈ es, acc.lookup p.1 = none) →
    (es.map Prod.fst).Nodup →
    List.foldl (fun d q => loadOne d q.1 q.2) ⟨acc⟩
      (es.flatMap fun p => p.2.saveFiles p.1) = ⟨acc ++ es⟩ := by
  intro es
  induction es with
  | nil => intro acc _ _ _; simp
  | cons e es ih =>
    intro acc hWF hfresh hnd
    rcases e with ⟨k, v⟩
    obtain ⟨hgood, hWFv⟩ := hWF (k, v) (List.mem_cons_self _ _)
    simp only [List.map_cons, List.nodup_cons] at hnd
    simp only [List.flatMap_cons, List.foldl_append]
    rw [load_entry_files k v acc hgood hWFv
      (hfresh (k, v) (List.mem_cons_self _ _))]
    have hfresh' : ∀ p ∈ es, (acc ++ [(k, v)]).lookup p.1 = none := by
      intro p hp
      refine lookup_append_none acc p.1 k v
        (hfresh p (List.mem_cons_of_mem _ hp)) ?_
      intro hh
      exact hnd.1 (hh ▸ List.mem_map_of_mem Prod.fst hp)
    have hWF' : ∀ p ∈ es, goodName p.1 ∧ WFValue p.1 p.2 :=
      fun p hp => hWF p (List.mem_cons_of_mem _ hp)
    rw [ih (acc ++ [(k, v)]) hWF' hfresh' hnd.2]
    simp

/-- Loading the directory written by `save` reconstructs a well-formed
record exactly. -/
theorem loadFiles_saveFiles (d : DataDict) (h : WFRecord d) :
    loadFiles d.saveFiles = d := by
  obtain ⟨es⟩ := d
  obtain ⟨hnd, hWF⟩ := h
  unfold loadFiles DataDict.saveFiles
  rw [load_fold_entries es [] (fun p hp => hWF p hp) (fun p _ => rfl) hnd]
  rfl

/-- With distinct keys, every entry finds itself. -/
theorem lookup_self_of_nodup {α : Type} (xs : List (String × α))
    (h : (xs.map Prod.fst).Nodup) : ∀ p ∈ xs, xs.lookup p.1 = some p.2 := by
  induction xs with
  | nil => intro p hp; exact absurd hp (List.not_mem_nil p)
  | cons q qs ih =>
    intro p hp
    rcases q with ⟨qk, qv⟩
    simp only [List.map_cons, List.nodup_cons] at h
    rcases List.mem_cons.1 hp with rfl | hp2
    · simp [List.lookup_cons]
    · have hne : p.1 ≠ qk := fun hh =>
        h.1 (hh ▸ List.mem_map_of_mem Prod.fst hp2)
      simp only [List.lookup_cons]
      rcases hbk : p.1 == qk with _ | _
      · exact ih h.2 p hp2
      · exact absurd (beq_iff_eq.1 hbk) hne

/-- Python `==` is reflexive on non-NaN scalars. -/
theorem scalarEq_refl (s : Scalar) (h : s ≠ Scalar.nan) :
    scalarEq s s = true := by
  rcases s with n | st | b | _
  · simp [scalarEq]
  · simp [scalarEq]
  · simp [scalarEq]
  · exact absurd rfl h

/-- Dict equality is reflexive on well-formed dicts. -/
theorem pydictEq_refl (p : List (String × Scalar)) (h : WFdict p) :
    pydictEq p p = true := by
  unfold pydictEq
  rw [Bool.and_eq_true, List.all_eq_true]
  refine ⟨by simp, ?_⟩
  intro q hq
  rw [lookup_self_of_nodup p h.1 q hq]
  exact scalarEq_refl q.2 (h.2 q hq)

/-- Child comparison is reflexive on well-formed children. -/
theorem childEq_refl (c : Child) (h : WFChild c) : childEq c c = true := by
  rcases c with t | pd | s
  · simp [childEq]
  · exact pydictEq_refl pd h
  · exact absurd h not_false

/-- Value comparison is reflexive on well-formed values. -/
theorem valueEq_refl (k : String) (v : Value) (h : WFValue k v) :
    valueEq v v = true := by
  rcases v with t | pd | s | cs
  · simp [valueEq]
  · exact pydictEq_refl pd h
  · exact scalarEq_refl s h
  · obtain ⟨_, _, hnd, hch⟩ := h
    unfold valueEq subEq
    rw [List.all_eq_true]
    intro q hq
    rw [lookup_self_of_nodup cs hnd q hq]
    exact childEq_refl q.2 (hch q hq).2

/-- The source `DataDict.__eq__` is reflexive on well-formed records. -/
theorem dataDictEq_refl (d : DataDict) (h : WFRecord d) :
    dataDictEq d d = true := by
  unfold dataDictEq
  rw [List.all_eq_true]
  intro p hp
  rw [show d.lookup p.1 = some p.2 from
    lookup_self_of_nodup d.entries h.1 p hp]
  exact valueEq_refl p.1 p.2 (h.2 p hp).2

/-- C2: saving a well-formed Output Record into an experiment directory and
loading that directory back yields a record that compares equal to the
original — every table entry element-wise equal, every structured-mapping
entry equal (in fact the reconstruction is exact, entry for entry). -/
theorem c2_save_load_roundtrip (d : DataDict) (en : Option String)
    (ei : Option Int) (listing : List String) (dir : String)
    (files : List (String × File)) (hWF : WFRecord d)
    (hsave : d.save en ei listing = .ok (dir, files)) :
    loadFiles files = d ∧ dataDictEq d (loadFiles files) = true := by
  have hfiles : files = d.saveFiles := by
    unfold DataDict.save at hsave
    rcases ei with _ | i
    · rcases hl : last_exp_id (d.resolveExpName en) listing with e | i0
      · rw [hl] at hsave
        exact Except.noConfusion hsave
      · rw [hl] at hsave
        have h2 : (d.resolveExpName en ++ "_" ++ toString (i0 + 1),
            d.saveFiles) = (dir, files) := Except.ok.inj hsave
        exact (congrArg Prod.snd h2).symm
    · have h2 : (d.resolveExpName en ++ "_" ++ toString i, d.saveFiles) =
          (dir, files) := Except.ok.inj hsave
      exact (congrArg Prod.snd h2).symm
  rw [hfiles, loadFiles_saveFiles d hWF]
  exact ⟨rfl, dataDictEq_refl d hWF⟩

/-- C2 witness: the scenario record round trips through a fresh save. -/
theorem c2_save_load_roundtrip_witness :
    loadFiles egRecord.saveFiles = egRecord ∧
    dataDictEq egRecord (loadFiles egRecord.saveFiles) = true :=
  c2_save_load_roundtrip egRecord (some "exp") none [] "exp_1"
    egRecord.saveFiles (by decide) rfl
